import Mathlib

/-!
Verification of the lead-queue / slot-dispatch scheduler of the
ai-calling-backend repository (shallow embedding of the JavaScript source).

Strings are modelled by Lean strings; JavaScript Maps are modelled by
association lists in insertion order (as JS Map iteration order is insertion
order); JS Sets of ids are modelled by duplicate-free lists.  A JS value that
is checked for truthiness is modelled by Option String, where none models
undefined/null and the empty string models the falsy "".
-/

/-! ## Generic association-list helpers (JS Map semantics) -/

/-- `Map.get`: first entry with the given key, if any. -/
def assocGet {α : Type} (m : List (String × α)) (k : String) : Option α :=
  match m with
  | [] => none
  | (k2, v) :: rest => if k2 = k then some v else assocGet rest k

/-- `Map.set`: replace the value at an existing key in place, else append. -/
def assocSet {α : Type} (m : List (String × α)) (k : String) (v : α) :
    List (String × α) :=
  match m with
  | [] => [(k, v)]
  | (k2, v2) :: rest =>
    if k2 = k then (k2, v) :: rest else (k2, v2) :: assocSet rest k v

/-- `Map.delete`: remove the entries with the given key. -/
def assocDelete {α : Type} (m : List (String × α)) (k : String) :
    List (String × α) :=
  m.filter (fun e => e.fst != k)

/-- `Set.add`: append the element if it is not already present. -/
def setAdd (l : List String) (x : String) : List String :=
  if x ∈ l then l else l ++ [x]

/-- `Set.delete`: remove the element. -/
def setDel (l : List String) (x : String) : List String :=
  l.filter (fun y => y != x)

/-- Truthiness of a JS string value: undefined/null and "" are falsy. -/
def strTruthy (o : Option String) : Bool :=
  match o with
  | none => false
  | some s => s != ""

/-- JS `a || b` for string values with a string default. -/
def strOr (a : Option String) (b : String) : String :=
  match a with
  | none => b
  | some s => if s = "" then b else s

/-- `String.toLowerCase()` (ASCII letters, as in the values compared here). -/
def jsToLower (s : String) : String :=
  String.mk (s.data.map Char.toLower)

/-- `String.trim()`: drop leading and trailing whitespace. -/
def jsTrim (l : List Char) : List Char :=
  ((l.dropWhile Char.isWhitespace).reverse.dropWhile Char.isWhitespace).reverse

/-! ## morganToggle.js -/

/-- `isMorganEnabled`: `(process.env.MORGAN_ENABLED || 'true').toLowerCase()`
is compared against "true", "1", "yes".  The environment variable is none
when unset. -/
def isMorganEnabled (env : Option String) : Bool :=
  let raw := match env with
    | none => "true"
    | some s => if s = "" then "true" else s
  let v := jsToLower raw
  v == "true" || v == "1" || v == "yes"

/-- The enable predicate as claim C9 words it: true iff the variable,
lowercased, is "true", "1" or "yes", or is unset.  (Clearly named
claim-side definition, for comparison with `isMorganEnabled`.) -/
def claimSpecEnabled (env : Option String) : Bool :=
  match env with
  | none => true
  | some s =>
    let v := jsToLower s
    v == "true" || v == "1" || v == "yes"

/-- The amended enable predicate: additionally, the empty string (a set but
empty variable, falsy in JS) falls back to the default and enables. -/
def amendedSpecEnabled (env : Option String) : Bool :=
  match env with
  | none => true
  | some s =>
    if s = "" then true
    else
      let v := jsToLower s
      v == "true" || v == "1" || v == "yes"

/-! ## voiceGateway.js -/

/-- Characters kept by `s.replace(/[^\d+]/g, "")`. -/
def isDialChar (c : Char) : Bool :=
  c.isDigit || c == '+'

/-- `s.startsWith("+")` on the character list. -/
def headIsPlus (l : List Char) : Bool :=
  match l with
  | c :: _ => c == '+'
  | [] => false

/-- `normalizeToE164`: trim, strip everything but digits and '+', return
as-is if it starts with '+', else prepend "+1" to the digits; null when the
input is falsy or no digits remain. -/
def normalizeToE164 (raw : String) : Option String :=
  if raw = "" then none
  else
    let s := (jsTrim raw.data).filter isDialChar
    if headIsPlus s then some (String.mk s)
    else
      let digits := s.filter Char.isDigit
      if digits = [] then none else some (String.mk ('+' :: '1' :: digits))

/-- `getAssistantIdForAgent`. -/
def getAssistantIdForAgent (agentName explicitAssistantId : Option String)
    (morganId rileyId : Option String) : Option String :=
  if strTruthy explicitAssistantId then explicitAssistantId
  else
    let name := jsToLower (strOr agentName "")
    if name = "morgan" then morganId
    else if name = "riley" then rileyId
    else none

/-- Result of `startOutboundCall` up to the point where the Vapi HTTP request
would be issued: either an early return / thrown error, or the request is
sent (`contactedService` carries the normalized customer number). -/
inductive StartCallOutcome where
  | skippedDisabled
  | threwMissingApiKey
  | threwMissingToNumber
  | threwBadNumber
  | threwNoAssistant
  | threwNoPhoneNumberId
  | contactedService (customerNumber : String) (phoneNumberId : String)
deriving DecidableEq

/-- `startOutboundCall` (voiceGateway.js): the control flow before the fetch.
`nextPid` stands for `getNextVapiPhoneNumberId()` (none when no id is
configured, in which case that helper throws). -/
def startOutboundCall (enabled : Bool)
    (apiKey morganId rileyId nextPid : Option String)
    (agentType agentName assistantId toNumber phoneNumberId : Option String) :
    StartCallOutcome :=
  let resolvedAgentType := jsToLower (strOr agentType (strOr agentName "morgan"))
  if resolvedAgentType = "morgan" && !enabled then .skippedDisabled
  else if !strTruthy apiKey then .threwMissingApiKey
  else if !strTruthy toNumber then .threwMissingToNumber
  else
    match normalizeToE164 (strOr toNumber "") with
    | none => .threwBadNumber
    | some customerNumber =>
      let resolvedAssistantId :=
        getAssistantIdForAgent agentName assistantId morganId rileyId
      if !strTruthy resolvedAssistantId then .threwNoAssistant
      else
        match phoneNumberId with
        | some pid =>
          if pid = "" then
            match nextPid with
            | none => .threwNoPhoneNumberId
            | some p => .contactedService customerNumber p
          else .contactedService customerNumber pid
        | none =>
          match nextPid with
          | none => .threwNoPhoneNumberId
          | some p => .contactedService customerNumber p

/-! ## Morgan slot pool (index.js) -/

/-- One Morgan slot: `{ busy, callId, startedAt }`. -/
structure Slot where
  busy : Bool
  callId : Option String
  startedAt : Option Nat
deriving DecidableEq

/-- The two slot maps: `morganSlots : phoneNumberId -> Slot` and
`morganCallToSlot : callId -> phoneNumberId`. -/
structure SlotState where
  slots : List (String × Slot)
  callToSlot : List (String × String)
deriving DecidableEq

/-- The initial pool built from `VAPI_PHONE_NUMBER_IDS`: every id free. -/
def initSlotState (ids : List String) : SlotState :=
  { slots := ids.map (fun id => (id, { busy := false, callId := none, startedAt := none })),
    callToSlot := [] }

/-- `getFreeMorganSlotId`: first entry whose slot is not busy. -/
def getFreeMorganSlotId (st : SlotState) : Option String :=
  (st.slots.find? (fun e => !e.snd.busy)).map (fun e => e.fst)

/-- `markMorganSlotBusy(phoneNumberId, callId)`.  `slot.callId = callId || null`;
the call-id index is updated only for a truthy callId. -/
def markMorganSlotBusy (st : SlotState) (pid : String) (callId : Option String)
    (now : Nat) : SlotState :=
  match assocGet st.slots pid with
  | none => st
  | some _ =>
    let newSlot : Slot :=
      { busy := true,
        callId := if strTruthy callId then callId else none,
        startedAt := some now }
    { slots := assocSet st.slots pid newSlot,
      callToSlot :=
        match callId with
        | some c => if c = "" then st.callToSlot else assocSet st.callToSlot c pid
        | none => st.callToSlot }

/-- `freeMorganSlot(phoneNumberId) -> bool`. -/
def freeMorganSlot (st : SlotState) (pid : String) : Bool × SlotState :=
  match assocGet st.slots pid with
  | none => (false, st)
  | some slot =>
    let m :=
      match slot.callId with
      | some c => if c = "" then st.callToSlot else assocDelete st.callToSlot c
      | none => st.callToSlot
    (true,
      { slots := assocSet st.slots pid { busy := false, callId := none, startedAt := none },
        callToSlot := m })

/-- `freeMorganSlotByCallId(callId) -> bool`. -/
def freeMorganSlotByCallId (st : SlotState) (c : String) : Bool × SlotState :=
  match assocGet st.callToSlot c with
  | none => (false, st)
  | some pid =>
    if pid = "" then (false, st)
    else
      match assocGet st.slots pid with
      | none => (false, st)
      | some _ =>
        (true,
          { slots := assocSet st.slots pid { busy := false, callId := none, startedAt := none },
            callToSlot := assocDelete st.callToSlot c })

/-- Number of free slots in the pool. -/
def freeSlotCount (st : SlotState) : Nat :=
  (st.slots.filter (fun e => !e.snd.busy)).length

/-- A claim immediately followed by marking the claimed slot busy, the way
`processMorganQueueTick` uses the pool on a successful launch. -/
def claimAndMark (st : SlotState) (c : String) (now : Nat) :
    Option String × SlotState :=
  match getFreeMorganSlotId st with
  | none => (none, st)
  | some pid => (some pid, markMorganSlotBusy st pid (some c) now)

/-- Results of a sequence of claim-and-mark operations (one call id each). -/
def runClaims (st : SlotState) (cs : List String) (now : Nat) :
    List (Option String) :=
  match cs with
  | [] => []
  | c :: rest =>
    let r := claimAndMark st c now
    r.fst :: runClaims r.snd rest now

/-- One slot-pool operation, as claim C6 quantifies over them. -/
inductive SlotOp where
  | mark (pid c : String) (now : Nat)
  | free (pid : String)
  | freeByCall (c : String)
deriving DecidableEq

/-- Apply one operation (the boolean results are discarded). -/
def applySlotOp (st : SlotState) (op : SlotOp) : SlotState :=
  match op with
  | .mark pid c now => markMorganSlotBusy st pid (some c) now
  | .free pid => (freeMorganSlot st pid).snd
  | .freeByCall c => (freeMorganSlotByCallId st c).snd

/-- Apply a sequence of operations. -/
def runSlotOps (st : SlotState) (ops : List SlotOp) : SlotState :=
  match ops with
  | [] => st
  | op :: rest => runSlotOps (applySlotOp st op) rest

/-- The bidirectional-index invariant claimed by C6: every busy slot has a
call id that resolves back to that slot, and every index entry points to a
slot busy with that call id. -/
def slotInvariant (st : SlotState) : Bool :=
  (st.slots.all (fun e =>
    !e.snd.busy ||
      (match e.snd.callId with
       | some c => c != "" && assocGet st.callToSlot c == some e.fst
       | none => false))) &&
  (st.callToSlot.all (fun e =>
    match assocGet st.slots e.snd with
    | some sl => sl.busy && sl.callId == some e.fst
    | none => false))

/-- Free slots carry no stale call id or start time (true of every state the
code produces: slots start clean and both free operations reset them). -/
def slotsClean (st : SlotState) : Bool :=
  st.slots.all (fun e =>
    e.snd.busy || (e.snd.callId == none && e.snd.startedAt == none))

/-- Well-formedness used to propagate the C6 invariant: the invariant itself,
clean free slots, and duplicate-free map keys (JS Map keys are unique). -/
def slotWellFormed (st : SlotState) : Bool :=
  slotInvariant st && slotsClean st &&
    decide ((st.slots.map (fun e => e.fst)).Nodup) &&
    decide ((st.callToSlot.map (fun e => e.fst)).Nodup)

/-- The scheduler's usage discipline for one operation: `markBusy` is only
issued with a nonempty call id, for a slot that is currently free (or
absent), and with a call id not already tracked in the index. -/
def slotOpGuard (st : SlotState) (op : SlotOp) : Bool :=
  match op with
  | .mark pid c _ =>
    (c != "") &&
      (match assocGet st.slots pid with
       | some sl => !sl.busy
       | none => true) &&
      (assocGet st.callToSlot c == none)
  | .free _ => true
  | .freeByCall _ => true

/-- All operations in a sequence respect the guard at their own state. -/
def slotOpsGuarded (st : SlotState) (ops : List SlotOp) : Bool :=
  match ops with
  | [] => true
  | op :: rest => slotOpGuard st op && slotOpsGuarded (applySlotOp st op) rest

/-! ## Morgan lead queue and dispatch tick (index.js) -/

/-- A lead record, restricted to the fields the scheduler logic reads.  The
empty string models a missing (falsy) field. -/
structure Lead where
  id : String
  phone : String
deriving DecidableEq

/-- Scheduler state: `morganQueue`, `morganQueuedIds`, the slot pool, and the
log of status updates handed to `enqueueConvosoUpdate` as
(lead id, status) pairs ("MQ" = queued, "MC" = dispatching). -/
structure SysState where
  queue : List Lead
  queuedIds : List String
  slotSt : SlotState
  transitions : List (String × String)
deriving DecidableEq

/-- `enqueueMorganLead(lead)`: reject a falsy id, reject a duplicate id,
else push to the tail, track the id, and (when Morgan is enabled) enqueue a
Convoso update to status "MQ". -/
def enqueueMorganLead (enabled : Bool) (st : SysState) (lead : Lead) : SysState :=
  if lead.id = "" then st
  else if lead.id ∈ st.queuedIds then st
  else
    { st with
      queue := st.queue ++ [lead],
      queuedIds := setAdd st.queuedIds lead.id,
      transitions :=
        if enabled then st.transitions ++ [(lead.id, "MQ")] else st.transitions }

/-- `getNextMorganLead()`: shift the head, untrack its id, and (when enabled)
enqueue a Convoso update to status "MC". -/
def getNextMorganLead (enabled : Bool) (st : SysState) : Option Lead × SysState :=
  match st.queue with
  | [] => (none, st)
  | lead :: rest =>
    if lead.id = "" then (some lead, { st with queue := rest })
    else
      (some lead,
        { st with
          queue := rest,
          queuedIds := setDel st.queuedIds lead.id,
          transitions :=
            if enabled then st.transitions ++ [(lead.id, "MC")] else st.transitions })

/-- Outcome of one `startOutboundCall` invocation as seen by the tick:
either it resolves (with `result.callId` possibly null/missing) or it
throws. -/
inductive LaunchOutcome where
  | ok (callId : Option String)
  | failed
deriving DecidableEq

/-- One iteration of the `while (true)` loop in `processMorganQueueTick`.
Returns whether the loop continues, plus the new state.  `launch` is the
Call Launch Service; `now` the clock used by `markMorganSlotBusy`. -/
def tickStep (enabled : Bool) (launch : String → Lead → LaunchOutcome)
    (now : Nat) (st : SysState) : Bool × SysState :=
  match getFreeMorganSlotId st.slotSt with
  | none => (false, st)
  | some freeSlotId =>
    match getNextMorganLead enabled st with
    | (none, st1) => (false, st1)
    | (some lead, st1) =>
      if lead.phone = "" then (false, st1)
      else
        match launch freeSlotId lead with
        | .ok cid =>
          if strTruthy cid then
            (true, { st1 with slotSt := markMorganSlotBusy st1.slotSt freeSlotId cid now })
          else
            let st2 := { st1 with queue := lead :: st1.queue }
            let st3 :=
              if lead.id = "" then st2
              else
                { st2 with
                  queuedIds := setAdd st2.queuedIds lead.id,
                  transitions :=
                    if enabled then st2.transitions ++ [(lead.id, "MQ")]
                    else st2.transitions }
            (true, { st3 with slotSt := (freeMorganSlot st3.slotSt freeSlotId).snd })
        | .failed =>
          let st2 :=
            { st1 with
              transitions :=
                if enabled then st1.transitions ++ [(lead.id, "MQ")]
                else st1.transitions }
          let st3 := enqueueMorganLead enabled st2 lead
          (true, { st3 with slotSt := (freeMorganSlot st3.slotSt freeSlotId).snd })

/-- The tick loop, fuelled: `launch` may differ per iteration (the k-th
dispatched pair uses `launch k`). -/
def tickLoop (enabled : Bool) (launch : Nat → String → Lead → LaunchOutcome)
    (now : Nat) : Nat → Nat → SysState → SysState
  | 0, _, st => st
  | fuel + 1, k, st =>
    let r := tickStep enabled (launch k) now st
    if r.fst then tickLoop enabled launch now fuel (k + 1) r.snd else r.snd

/-- The loop body of `hydrateMorganQueueFromConvoso`: skip a lead with no
id, no phone, or a duplicate id; otherwise append and track. -/
def hydrateAddLead (acc : SysState) (lead : Lead) : SysState :=
  if lead.id = "" then acc
  else if lead.phone = "" then acc
  else if lead.id ∈ acc.queuedIds then acc
  else
    { acc with
      queue := acc.queue ++ [lead], queuedIds := setAdd acc.queuedIds lead.id }

/-- The loop body of `mergeMorganQueueFromMQ`: skip a lead with no id or a
duplicate id; otherwise append and track. -/
def mergeAddLead (acc : SysState) (lead : Lead) : SysState :=
  if lead.id = "" then acc
  else if lead.id ∈ acc.queuedIds then acc
  else
    { acc with
      queue := acc.queue ++ [lead], queuedIds := setAdd acc.queuedIds lead.id }

/-- `hydrateMorganQueueFromConvoso` after the search: reset queue and id set,
then add each normalized lead that has an id, a phone, and is not a
duplicate.  (The Convoso search result is the `leads` parameter.) -/
def hydrateMorganQueueFromConvoso (st : SysState) (leads : List Lead) : SysState :=
  leads.foldl hydrateAddLead { st with queue := [], queuedIds := [] }

/-- `mergeMorganQueueFromMQ` after the search: filter to leads with a phone,
then add each lead that has an id and is not a duplicate. -/
def mergeMorganQueueFromMQ (st : SysState) (leads : List Lead) : SysState :=
  (leads.filter (fun l => l.phone != "")).foldl mergeAddLead st

/-- Every record in the queue has a non-empty phone field (claim C8). -/
def queueAllHavePhone (st : SysState) : Bool :=
  st.queue.all (fun l => l.phone != "")

/-- The operations claim C8 quantifies over. -/
inductive QueueOp where
  | enq (lead : Lead)
  | deq
  | tick (launch : String → Lead → LaunchOutcome) (now : Nat)
  | hydrate (leads : List Lead)
  | merge (leads : List Lead)

/-- Apply one queue-level operation. -/
def applyQueueOp (enabled : Bool) (st : SysState) (op : QueueOp) : SysState :=
  match op with
  | .enq lead => enqueueMorganLead enabled st lead
  | .deq => (getNextMorganLead enabled st).snd
  | .tick launch now => (tickStep enabled launch now st).snd
  | .hydrate leads => hydrateMorganQueueFromConvoso st leads
  | .merge leads => mergeMorganQueueFromMQ st leads

/-- Apply a sequence of queue-level operations. -/
def runQueueOps (enabled : Bool) (st : SysState) (ops : List QueueOp) : SysState :=
  match ops with
  | [] => st
  | op :: rest => runQueueOps enabled (applyQueueOp enabled st op) rest

/-- Leads offered directly to the enqueue operation all carry a phone number
(true of every caller in the repository: the pull jobs and the tick's
requeue paths all filter on the phone field first). -/
def queueOpsPhoneFed (ops : List QueueOp) : Bool :=
  ops.all (fun op =>
    match op with
    | QueueOp.enq lead => lead.phone != ""
    | _ => true)

/-! ## Convoso status synchronization (updateConvosoLead) -/

/-- One HTTP response to a lead-update request: success, an error carrying an
HTTP status, or an error with no response status (network failure). -/
inductive ConvosoResp where
  | ok
  | errStatus (code : Nat)
  | errNoStatus
deriving DecidableEq

/-- Outcome of `updateConvosoLead`: resolved on some attempt, thrown after
exhausting the 429 retry budget, thrown immediately on a non-429 error, or
(model artifact) the supplied response sequence ran out. -/
inductive UpdateOutcome where
  | success (attempt : Nat)
  | dropped429 (attempt : Nat)
  | failedOther (code : Option Nat) (attempt : Nat)
  | noResponse
deriving DecidableEq

/-- `MAX_RETRIES_429 = 5`. -/
def MAX_RETRIES_429 : Nat := 5

/-- `BASE_DELAY_MS_429 = 500`. -/
def BASE_DELAY_MS_429 : Nat := 500

/-- The backoff delay before retry `attempt + 1`:
`BASE_DELAY_MS_429 * Math.pow(2, attempt - 1)` plus a jitter below 100. -/
def backoffDelay (attempt jitter : Nat) : Nat :=
  BASE_DELAY_MS_429 * 2 ^ (attempt - 1) + jitter

/-- `updateConvosoLead(leadId, fields, attempt)`: the n-th list element is
the response to the n-th HTTP attempt.  Only a 429 is retried, and only
while `attempt < MAX_RETRIES_429`; any other error propagates at once. -/
def updateConvosoLead (resps : List ConvosoResp) (attempt : Nat) : UpdateOutcome :=
  match resps with
  | [] => .noResponse
  | r :: rest =>
    match r with
    | .ok => .success attempt
    | .errStatus code =>
      if code = 429 then
        if MAX_RETRIES_429 ≤ attempt then .dropped429 attempt
        else updateConvosoLead rest (attempt + 1)
      else .failedOther (some code) attempt
    | .errNoStatus => .failedOther none attempt

/-! ## Dedup Ledger eviction sweep

Modelled from the spec: the bounded Dedup Ledger with its eviction sweep
(spec section 4.1).  The repository documents this fix (FIXES.md,
`cleanupOldQueuedIds`, `MAX_QUEUED_IDS`) and ships its test file, but the
index.js revision implementing it is not among the sources; the in-tree
revision keeps `morganQueuedIds` as a plain unbounded Set. -/

/-- Ledger state: entries in insertion order (id, insertedAt — timestamps
are nondecreasing along the list, so list order is age order), the Lead
Queue's ids, and the configured ceiling. -/
structure LedgerState where
  ledger : List (String × Nat)
  queue : List String
  ceiling : Nat
deriving DecidableEq

/-- Whether an id is tracked by the ledger. -/
def trackedId (st : LedgerState) (id : String) : Bool :=
  st.ledger.any (fun e => e.fst == id)

/-- Modelled from the spec: remove the oldest `target` entries whose id is
not currently present in the Lead Queue, walking the ledger oldest first. -/
def sweepGo (queue : List String) : Nat → List (String × Nat) → List (String × Nat)
  | _, [] => []
  | 0, l => l
  | t + 1, e :: rest =>
    if e.fst ∈ queue then e :: sweepGo queue (t + 1) rest
    else sweepGo queue t rest

/-- Modelled from the spec: the eviction sweep removes the oldest 10% of
tracked ids (`ceiling / 10` of them) that are not in the Lead Queue. -/
def evictionSweep (st : LedgerState) : LedgerState :=
  { st with ledger := sweepGo st.queue (st.ceiling / 10) st.ledger }

/-- Modelled from the spec: admission on enqueue — duplicates rejected,
otherwise the id is appended to ledger and queue, and when the ledger size
now exceeds the ceiling the eviction sweep runs as a side effect after the
admit. -/
def ledgerEnqueue (st : LedgerState) (id : String) (now : Nat) : LedgerState :=
  if trackedId st id then st
  else
    let st1 := { st with ledger := st.ledger ++ [(id, now)], queue := st.queue ++ [id] }
    if st.ceiling < st1.ledger.length then evictionSweep st1 else st1

/-- Enqueue a list of fresh ids at consecutive times. -/
def ledgerEnqueueAll (st : LedgerState) : List String → Nat → LedgerState
  | [], _ => st
  | id :: rest, n => ledgerEnqueueAll (ledgerEnqueue st id n) rest (n + 1)

/-! # Theorems -/

/-! ### Association-list lemmas -/

theorem assocGet_cons {α : Type} (k2 : String) (v2 : α)
    (rest : List (String × α)) (k : String) :
    assocGet ((k2, v2) :: rest) k = if k2 = k then some v2 else assocGet rest k :=
  rfl

theorem assocSet_cons {α : Type} (k2 : String) (v2 : α)
    (rest : List (String × α)) (k : String) (v : α) :
    assocSet ((k2, v2) :: rest) k v =
      if k2 = k then (k2, v) :: rest else (k2, v2) :: assocSet rest k v :=
  rfl

theorem assocGet_none_iff {α : Type} :
    ∀ (m : List (String × α)) (k : String),
      assocGet m k = none ↔ k ∉ m.map (fun e => e.fst) := by
  intro m
  induction m with
  | nil => intro k; simp [assocGet]
  | cons e rest ih =>
    intro k
    obtain ⟨k2, v2⟩ := e
    rw [assocGet_cons]
    by_cases hk : k2 = k
    · simp [hk]
    · simp [hk, ih k, Ne.symm hk]

theorem assocGet_some_mem {α : Type} :
    ∀ {m : List (String × α)} {k : String} {v : α},
      assocGet m k = some v → (k, v) ∈ m := by
  intro m
  induction m with
  | nil => intro k v h; cases h
  | cons e rest ih =>
    intro k v h
    obtain ⟨k2, v2⟩ := e
    rw [assocGet_cons] at h
    by_cases hk : k2 = k
    · rw [if_pos hk] at h
      subst hk
      cases h
      exact List.mem_cons_self _ _
    · rw [if_neg hk] at h
      exact List.mem_cons_of_mem _ (ih h)

theorem assocGet_assocSet_self {α : Type} :
    ∀ (m : List (String × α)) (k : String) (v : α),
      assocGet (assocSet m k v) k = some v := by
  intro m
  induction m with
  | nil => intro k v; simp [assocSet, assocGet]
  | cons e rest ih =>
    intro k v
    obtain ⟨k2, v2⟩ := e
    rw [assocSet_cons]
    by_cases hk : k2 = k
    · rw [if_pos hk, assocGet_cons, if_pos hk]
    · rw [if_neg hk, assocGet_cons, if_neg hk]
      exact ih k v

theorem assocGet_assocSet_ne {α : Type} :
    ∀ (m : List (String × α)) (k k2 : String) (v : α), k2 ≠ k →
      assocGet (assocSet m k v) k2 = assocGet m k2 := by
  intro m
  induction m with
  | nil =>
    intro k k2 v hne
    rw [show assocSet ([] : List (String × α)) k v = [(k, v)] from rfl]
    rw [assocGet_cons, if_neg (fun h => hne (Eq.symm h))]
  | cons e rest ih =>
    intro k k2 v hne
    obtain ⟨k3, v3⟩ := e
    rw [assocSet_cons]
    by_cases hk : k3 = k
    · rw [if_pos hk, assocGet_cons, assocGet_cons]
      rw [if_neg (by rw [hk]; exact fun h => hne (Eq.symm h)),
        if_neg (by rw [hk]; exact fun h => hne (Eq.symm h))]
    · rw [if_neg hk, assocGet_cons, assocGet_cons]
      by_cases h3 : k3 = k2
      · rw [if_pos h3, if_pos h3]
      · rw [if_neg h3, if_neg h3]
        exact ih k k2 v hne

theorem assocSet_fresh {α : Type} :
    ∀ (m : List (String × α)) (k : String) (v : α),
      assocGet m k = none → assocSet m k v = m ++ [(k, v)] := by
  intro m
  induction m with
  | nil => intro k v _; rfl
  | cons e rest ih =>
    intro k v h
    obtain ⟨k2, v2⟩ := e
    rw [assocGet_cons] at h
    by_cases hk : k2 = k
    · rw [if_pos hk] at h; cases h
    · rw [if_neg hk] at h
      rw [assocSet_cons, if_neg hk, ih k v h]
      rfl

theorem assocSet_keys_of_mem {α : Type} :
    ∀ (m : List (String × α)) (k : String) (v w : α),
      assocGet m k = some w →
      (assocSet m k v).map (fun e => e.fst) = m.map (fun e => e.fst) := by
  intro m
  induction m with
  | nil => intro k v w h; cases h
  | cons e rest ih =>
    intro k v w h
    obtain ⟨k2, v2⟩ := e
    rw [assocGet_cons] at h
    rw [assocSet_cons]
    by_cases hk : k2 = k
    · rw [if_pos hk]; rfl
    · rw [if_neg hk] at h
      rw [if_neg hk, List.map_cons, List.map_cons, ih k v w h]

theorem assocSet_same {α : Type} :
    ∀ (m : List (String × α)) (k : String) (v : α),
      assocGet m k = some v → assocSet m k v = m := by
  intro m
  induction m with
  | nil => intro k v h; cases h
  | cons e rest ih =>
    intro k v h
    obtain ⟨k2, v2⟩ := e
    rw [assocGet_cons] at h
    rw [assocSet_cons]
    by_cases hk : k2 = k
    · rw [if_pos hk] at h
      rw [if_pos hk, Option.some.inj h]
    · rw [if_neg hk] at h
      rw [if_neg hk, ih k v h]

theorem mem_assocSet_nodup {α : Type} :
    ∀ (m : List (String × α)) (k : String) (v : α) (e : String × α),
      (m.map (fun x => x.fst)).Nodup →
      (e ∈ assocSet m k v ↔ e = (k, v) ∨ (e ∈ m ∧ e.fst ≠ k)) := by
  intro m
  induction m with
  | nil => intro k v e _; simp [assocSet]
  | cons hd rest ih =>
    intro k v e hnd
    obtain ⟨k2, v2⟩ := hd
    rw [List.map_cons] at hnd
    have hnd2 := List.nodup_cons.mp hnd
    rw [assocSet_cons]
    by_cases hk : k2 = k
    · rw [if_pos hk]
      subst hk
      constructor
      · intro he
        rcases List.mem_cons.mp he with he1 | he2
        · exact Or.inl he1
        · refine Or.inr ⟨List.mem_cons_of_mem _ he2, ?_⟩
          intro hfst
          exact hnd2.1 (hfst ▸ List.mem_map_of_mem (fun x => x.fst) he2)
      · intro he
        rcases he with he1 | ⟨he2, hfst⟩
        · exact he1 ▸ List.mem_cons_self _ _
        · rcases List.mem_cons.mp he2 with he3 | he4
          · exact absurd (congrArg (fun x => x.fst) he3) hfst
          · exact List.mem_cons_of_mem _ he4
    · rw [if_neg hk]
      constructor
      · intro he
        rcases List.mem_cons.mp he with he1 | he2
        · subst he1
          exact Or.inr ⟨List.mem_cons_self _ _, fun h => hk h⟩
        · rcases (ih k v e hnd2.2).mp he2 with h1 | ⟨h2, h3⟩
          · exact Or.inl h1
          · exact Or.inr ⟨List.mem_cons_of_mem _ h2, h3⟩
      · intro he
        rcases he with he1 | ⟨he2, hfst⟩
        · exact List.mem_cons_of_mem _ ((ih k v e hnd2.2).mpr (Or.inl he1))
        · rcases List.mem_cons.mp he2 with he3 | he4
          · exact he3 ▸ List.mem_cons_self _ _
          · exact List.mem_cons_of_mem _ ((ih k v e hnd2.2).mpr (Or.inr ⟨he4, hfst⟩))

theorem mem_assocDelete {α : Type} (m : List (String × α)) (k : String)
    (e : String × α) :
    e ∈ assocDelete m k ↔ e ∈ m ∧ e.fst ≠ k := by
  unfold assocDelete
  rw [List.mem_filter]
  simp

theorem assocGet_assocDelete_self {α : Type} :
    ∀ (m : List (String × α)) (k : String),
      assocGet (assocDelete m k) k = none := by
  intro m k
  rw [assocGet_none_iff]
  intro hmem
  obtain ⟨e, he, hfst⟩ := List.mem_map.mp hmem
  exact ((mem_assocDelete m k e).mp he).2 hfst

theorem assocGet_assocDelete_ne {α : Type} :
    ∀ (m : List (String × α)) (k k2 : String), k2 ≠ k →
      assocGet (assocDelete m k) k2 = assocGet m k2 := by
  intro m
  induction m with
  | nil => intro k k2 _; rfl
  | cons e rest ih =>
    intro k k2 hne
    obtain ⟨k3, v3⟩ := e
    unfold assocDelete
    rw [List.filter_cons]
    by_cases hk : k3 = k
    · have : ((k3, v3).fst != k) = false := by simp [hk]
      rw [this]
      simp only [Bool.false_eq_true, if_false]
      rw [assocGet_cons, if_neg (by rw [hk]; exact fun h => hne (Eq.symm h))]
      exact ih k k2 hne
    · have : ((k3, v3).fst != k) = true := by simp [hk]
      rw [this]
      simp only [if_true]
      rw [assocGet_cons, assocGet_cons]
      by_cases h3 : k3 = k2
      · rw [if_pos h3, if_pos h3]
      · rw [if_neg h3, if_neg h3]
        exact ih k k2 hne

theorem assocDelete_keys_sublist {α : Type} (m : List (String × α)) (k : String) :
    ((assocDelete m k).map (fun e => e.fst)).Sublist (m.map (fun e => e.fst)) :=
  List.Sublist.map (fun e => e.fst) (List.filter_sublist m)

theorem assocGet_append_of_none {α : Type} :
    ∀ (m l2 : List (String × α)) (k : String),
      assocGet m k = none → assocGet (m ++ l2) k = assocGet l2 k := by
  intro m
  induction m with
  | nil => intro l2 k _; rfl
  | cons e rest ih =>
    intro l2 k h
    obtain ⟨k2, v2⟩ := e
    rw [assocGet_cons] at h
    by_cases hk : k2 = k
    · rw [if_pos hk] at h; cases h
    · rw [if_neg hk] at h
      rw [List.cons_append, assocGet_cons, if_neg hk]
      exact ih l2 k h

/-! ### Character and list helper lemmas -/

theorem ws_not_digit {c : Char} (hw : c.isWhitespace = true) : c.isDigit = false := by
  simp only [Char.isWhitespace, Bool.or_eq_true, decide_eq_true_eq] at hw
  rcases hw with ((h | h) | h) | h <;> subst h <;> decide

theorem ws_not_dial {c : Char} (hw : c.isWhitespace = true) : isDialChar c = false := by
  simp only [Char.isWhitespace, Bool.or_eq_true, decide_eq_true_eq] at hw
  rcases hw with ((h | h) | h) | h <;> subst h <;> decide

theorem dial_not_ws {c : Char} (hd : isDialChar c = true) : c.isWhitespace = false := by
  cases hw : c.isWhitespace with
  | false => rfl
  | true => rw [ws_not_dial hw] at hd; exact absurd hd (by simp)

theorem digit_is_dial {c : Char} (hd : c.isDigit = true) : isDialChar c = true := by
  simp [isDialChar, hd]

theorem dropWhile_eq_self_of_not {p : Char → Bool} :
    ∀ l : List Char, (∀ c ∈ l, p c = false) → l.dropWhile p = l
  | [], _ => rfl
  | c :: rest, h => by
    have hc := h c (List.mem_cons_self c rest)
    simp [List.dropWhile_cons, hc]

theorem jsTrim_eq_self {l : List Char}
    (h : ∀ c ∈ l, c.isWhitespace = false) : jsTrim l = l := by
  unfold jsTrim
  rw [dropWhile_eq_self_of_not l h]
  rw [dropWhile_eq_self_of_not l.reverse (fun c hc => h c (List.mem_reverse.mp hc))]
  exact List.reverse_reverse l

theorem filter_digit_dropWhile_ws :
    ∀ l : List Char,
      (l.dropWhile Char.isWhitespace).filter Char.isDigit = l.filter Char.isDigit
  | [] => rfl
  | c :: rest => by
    cases hc : c.isWhitespace with
    | true =>
      have hd : c.isDigit = false := ws_not_digit hc
      simp only [List.dropWhile_cons, hc, if_true, List.filter_cons, hd, if_false]
      simpa using filter_digit_dropWhile_ws rest
    | false => simp [List.dropWhile_cons, hc]

theorem filter_digit_reverse (l : List Char) :
    l.reverse.filter Char.isDigit = (l.filter Char.isDigit).reverse := by
  induction l with
  | nil => rfl
  | cons c rest ih =>
    cases hd : c.isDigit <;>
      simp [List.reverse_cons, List.filter_append, List.filter_cons, hd, ih]

theorem filter_digit_jsTrim (l : List Char) :
    (jsTrim l).filter Char.isDigit = l.filter Char.isDigit := by
  unfold jsTrim
  rw [filter_digit_reverse, filter_digit_dropWhile_ws, filter_digit_reverse,
    List.reverse_reverse, filter_digit_dropWhile_ws]

theorem filter_dial_then_digit (m : List Char) :
    (m.filter isDialChar).filter Char.isDigit = m.filter Char.isDigit := by
  induction m with
  | nil => rfl
  | cons c rest ih =>
    cases hd : c.isDigit with
    | true =>
      have hdial := digit_is_dial hd
      simp [List.filter_cons, hd, hdial, ih]
    | false =>
      cases hdial : isDialChar c <;> simp [List.filter_cons, hd, hdial, ih]

theorem stringMk_data (l : List Char) : (String.mk l).data = l := rfl

theorem stringMk_cons_ne_empty (c : Char) (l : List Char) :
    String.mk (c :: l) ≠ "" := by
  intro h
  have h2 : c :: l = ([] : List Char) := congrArg String.data h
  cases h2

theorem normalize_of_all_dial {l : List Char} (h : ∀ c ∈ l, isDialChar c = true) :
    (jsTrim l).filter isDialChar = l := by
  rw [jsTrim_eq_self (fun c hc => dial_not_ws (h c hc))]
  exact List.filter_eq_self.mpr h

theorem normalizeToE164_eq (raw : String) :
    normalizeToE164 raw =
      if raw = "" then none
      else
        if headIsPlus ((jsTrim raw.data).filter isDialChar) then
          some (String.mk ((jsTrim raw.data).filter isDialChar))
        else
          if ((jsTrim raw.data).filter isDialChar).filter Char.isDigit = [] then none
          else
            some (String.mk
              ('+' :: '1' :: ((jsTrim raw.data).filter isDialChar).filter Char.isDigit)) :=
  rfl

theorem normalizeToE164_fixpoint {raw r : String}
    (h : normalizeToE164 raw = some r) : normalizeToE164 r = some r := by
  rw [normalizeToE164_eq] at h
  by_cases hraw : raw = ""
  · rw [if_pos hraw] at h; cases h
  · rw [if_neg hraw] at h
    by_cases hplus : headIsPlus ((jsTrim raw.data).filter isDialChar) = true
    · rw [if_pos hplus] at h
      have hall : ∀ c ∈ (jsTrim raw.data).filter isDialChar, isDialChar c = true :=
        fun c hc => (List.mem_filter.mp hc).2
      obtain ⟨c, tail, hcons⟩ :
          ∃ c tail, (jsTrim raw.data).filter isDialChar = c :: tail := by
        cases hs : (jsTrim raw.data).filter isDialChar with
        | nil => rw [hs] at hplus; simp [headIsPlus] at hplus
        | cons a t => exact ⟨a, t, rfl⟩
      have hr := Option.some.inj h
      rw [← hr, normalizeToE164_eq]
      rw [if_neg (by rw [hcons]; exact stringMk_cons_ne_empty c tail)]
      have hdata : (String.mk ((jsTrim raw.data).filter isDialChar)).data =
          (jsTrim raw.data).filter isDialChar := rfl
      rw [hdata, normalize_of_all_dial hall, if_pos hplus]
    · rw [if_neg hplus] at h
      by_cases hdig : ((jsTrim raw.data).filter isDialChar).filter Char.isDigit = []
      · rw [if_pos hdig] at h; cases h
      · rw [if_neg hdig] at h
        have hr := Option.some.inj h
        have hall : ∀ c ∈ ('+' :: '1' ::
            ((jsTrim raw.data).filter isDialChar).filter Char.isDigit),
            isDialChar c = true := by
          intro c hc
          rcases List.mem_cons.mp hc with h1 | hc2
          · subst h1; decide
          rcases List.mem_cons.mp hc2 with h2 | hc3
          · subst h2; decide
          · exact digit_is_dial (List.mem_filter.mp hc3).2
        rw [← hr, normalizeToE164_eq]
        rw [if_neg (stringMk_cons_ne_empty _ _)]
        have hdata : (String.mk ('+' :: '1' ::
            ((jsTrim raw.data).filter isDialChar).filter Char.isDigit)).data =
            '+' :: '1' :: ((jsTrim raw.data).filter isDialChar).filter Char.isDigit := rfl
        rw [hdata, normalize_of_all_dial hall, if_pos (by simp [headIsPlus])]

theorem normalizeToE164_head {raw r : String}
    (h : normalizeToE164 raw = some r) : r.data.head? = some '+' := by
  rw [normalizeToE164_eq] at h
  by_cases hraw : raw = ""
  · rw [if_pos hraw] at h; cases h
  · rw [if_neg hraw] at h
    by_cases hplus : headIsPlus ((jsTrim raw.data).filter isDialChar) = true
    · rw [if_pos hplus] at h
      have hr := Option.some.inj h
      cases hs : (jsTrim raw.data).filter isDialChar with
      | nil => rw [hs] at hplus; simp [headIsPlus] at hplus
      | cons c tail =>
        rw [hs] at hplus hr
        have hc : c = '+' := by
          simp only [headIsPlus, beq_iff_eq] at hplus
          exact hplus
        rw [← hr, hc]
        rfl
    · rw [if_neg hplus] at h
      by_cases hdig : ((jsTrim raw.data).filter isDialChar).filter Char.isDigit = []
      · rw [if_pos hdig] at h; cases h
      · rw [if_neg hdig] at h
        have hr := Option.some.inj h
        rw [← hr]
        rfl

/-- Claim C10: phone-number normalization is idempotent
(`normalizeToE164 (normalizeToE164 s) = normalizeToE164 s`, with null
propagated), every non-null result starts with "+", and the result is null
exactly when the input has no digits and, after trimming and stripping to
dial characters, does not start with "+". -/
theorem C10_normalizeToE164_props (raw : String) :
    ((normalizeToE164 raw).bind normalizeToE164 = normalizeToE164 raw) ∧
    (∀ r : String, normalizeToE164 raw = some r → r.data.head? = some '+') ∧
    (normalizeToE164 raw = none ↔
      (headIsPlus ((jsTrim raw.data).filter isDialChar) = false ∧
       raw.data.filter Char.isDigit = [])) := by
  refine ⟨?_, fun r hr => normalizeToE164_head hr, ?_⟩
  · cases hn : normalizeToE164 raw with
    | none => rfl
    | some r => simpa using normalizeToE164_fixpoint hn
  · constructor
    · intro hn
      rw [normalizeToE164_eq] at hn
      by_cases hraw : raw = ""
      · subst hraw; exact ⟨rfl, rfl⟩
      · rw [if_neg hraw] at hn
        by_cases hplus : headIsPlus ((jsTrim raw.data).filter isDialChar) = true
        · rw [if_pos hplus] at hn; cases hn
        · rw [if_neg hplus] at hn
          by_cases hdig :
              ((jsTrim raw.data).filter isDialChar).filter Char.isDigit = []
          · refine ⟨Bool.not_eq_true _ ▸ hplus, ?_⟩
            rw [filter_dial_then_digit, filter_digit_jsTrim] at hdig
            exact hdig
          · rw [if_neg hdig] at hn; cases hn
    · rintro ⟨hplus, hdig⟩
      rw [normalizeToE164_eq]
      by_cases hraw : raw = ""
      · rw [if_pos hraw]
      · rw [if_neg hraw, if_neg (by rw [hplus]; exact Bool.false_ne_true)]
        rw [if_pos (by rw [filter_dial_then_digit, filter_digit_jsTrim]; exact hdig)]

/-- Witness for C10 at concrete inputs: "(305) 555-1234" normalizes to
"+13055551234", which starts with "+" and is a fixed point. -/
theorem C10_normalizeToE164_props_witness :
    normalizeToE164 "(305) 555-1234" = some "+13055551234" ∧
    ("+13055551234" : String).data.head? = some '+' ∧
    (normalizeToE164 "(305) 555-1234").bind normalizeToE164 =
      normalizeToE164 "(305) 555-1234" := by
  refine ⟨by decide, ?_, (C10_normalizeToE164_props "(305) 555-1234").1⟩
  exact (C10_normalizeToE164_props "(305) 555-1234").2.1 "+13055551234" (by decide)

/-! ### Claim C6: the bidirectional slot / call-id index -/

theorem slotInvariant_iff (st : SlotState) :
    slotInvariant st = true ↔
      ((∀ e ∈ st.slots, e.snd.busy = true →
          ∃ c, e.snd.callId = some c ∧ c ≠ "" ∧
            assocGet st.callToSlot c = some e.fst) ∧
       (∀ e ∈ st.callToSlot, ∃ sl, assocGet st.slots e.snd = some sl ∧
          sl.busy = true ∧ sl.callId = some e.fst)) := by
  unfold slotInvariant
  rw [Bool.and_eq_true, List.all_eq_true, List.all_eq_true]
  constructor
  · rintro ⟨h1, h2⟩
    constructor
    · intro e he hb
      have h3 := h1 e he
      rw [hb] at h3
      simp only [Bool.not_true, Bool.false_or] at h3
      cases hc : e.snd.callId with
      | none => rw [hc] at h3; cases h3
      | some c =>
        rw [hc] at h3
        rw [Bool.and_eq_true, bne_iff_ne, beq_iff_eq] at h3
        exact ⟨c, rfl, h3.1, h3.2⟩
    · intro e he
      have h3 := h2 e he
      cases hg : assocGet st.slots e.snd with
      | none => rw [hg] at h3; cases h3
      | some sl =>
        rw [hg] at h3
        rw [Bool.and_eq_true, beq_iff_eq] at h3
        exact ⟨sl, rfl, h3.1, h3.2⟩
  · rintro ⟨h1, h2⟩
    constructor
    · intro e he
      cases hb : e.snd.busy with
      | false => simp [hb]
      | true =>
        obtain ⟨c, hc, hcne, hcg⟩ := h1 e he hb
        simp [hb, hc, hcne, hcg]
    · intro e he
      obtain ⟨sl, hg, hb, hc⟩ := h2 e he
      simp [hg, hb, hc]

theorem slotsClean_iff (st : SlotState) :
    slotsClean st = true ↔
      ∀ e ∈ st.slots, e.snd.busy = false →
        e.snd.callId = none ∧ e.snd.startedAt = none := by
  unfold slotsClean
  rw [List.all_eq_true]
  constructor
  · intro h e he hb
    have h2 := h e he
    rw [hb] at h2
    simp only [Bool.false_or, Bool.and_eq_true, beq_iff_eq] at h2
    exact h2
  · intro h e he
    cases hb : e.snd.busy with
    | true => simp [hb]
    | false => simp [hb, (h e he hb).1, (h e he hb).2]

theorem slotWellFormed_iff (st : SlotState) :
    slotWellFormed st = true ↔
      slotInvariant st = true ∧ slotsClean st = true ∧
      (st.slots.map (fun e => e.fst)).Nodup ∧
      (st.callToSlot.map (fun e => e.fst)).Nodup := by
  unfold slotWellFormed
  simp [Bool.and_eq_true, and_assoc]

theorem wf_mark (st : SlotState) (pid c : String) (now : Nat)
    (hwf : slotWellFormed st = true)
    (hc : c ≠ "")
    (hfree : ∀ sl, assocGet st.slots pid = some sl → sl.busy = false)
    (hfresh : assocGet st.callToSlot c = none) :
    slotWellFormed (markMorganSlotBusy st pid (some c) now) = true := by
  obtain ⟨hinv, hclean, hnds, hndm⟩ := (slotWellFormed_iff st).mp hwf
  obtain ⟨hslot, hmap⟩ := (slotInvariant_iff st).mp hinv
  cases hg : assocGet st.slots pid with
  | none =>
    unfold markMorganSlotBusy
    rw [hg]
    exact hwf
  | some sl =>
    have hslfree : sl.busy = false := hfree sl hg
    have hmk : markMorganSlotBusy st pid (some c) now =
        { slots := assocSet st.slots pid
            { busy := true, callId := some c, startedAt := some now },
          callToSlot := assocSet st.callToSlot c pid } := by
      unfold markMorganSlotBusy
      rw [hg]
      have ht : strTruthy (some c) = true := by simp [strTruthy, hc]
      rw [ht]
      simp [hc]
    rw [hmk]
    have hkeys := assocSet_keys_of_mem st.slots pid
      { busy := true, callId := some c, startedAt := some now } sl hg
    have hmapp := assocSet_fresh st.callToSlot c pid hfresh
    have hcnotin : c ∉ st.callToSlot.map (fun e => e.fst) :=
      (assocGet_none_iff st.callToSlot c).mp hfresh
    rw [slotWellFormed_iff]
    refine ⟨?_, ?_, ?_, ?_⟩
    · rw [slotInvariant_iff]
      constructor
      · intro e he hb
        rcases (mem_assocSet_nodup st.slots pid _ e hnds).mp he with he1 | ⟨he2, hne⟩
        · subst he1
          refine ⟨c, rfl, hc, ?_⟩
          rw [hmapp, assocGet_append_of_none st.callToSlot _ c hfresh,
            assocGet_cons, if_pos rfl]
        · obtain ⟨ce, hce, hcene, hceg⟩ := hslot e he2 hb
          refine ⟨ce, hce, hcene, ?_⟩
          have hcec : ce ≠ c := by
            intro hcontra
            rw [hcontra, hfresh] at hceg
            cases hceg
          rw [assocGet_assocSet_ne st.callToSlot c ce pid hcec]
          exact hceg
      · intro e2 he2
        rw [hmapp] at he2
        rcases List.mem_append.mp he2 with hold | hnew
        · obtain ⟨sl2, hg2, hb2, hcid2⟩ := hmap e2 hold
          have hpne : e2.snd ≠ pid := by
            intro hcontra
            rw [hcontra, hg] at hg2
            cases hg2
            rw [hslfree] at hb2
            cases hb2
          refine ⟨sl2, ?_, hb2, hcid2⟩
          rw [assocGet_assocSet_ne st.slots pid e2.snd _ hpne]
          exact hg2
        · have he3 : e2 = (c, pid) := by simpa using hnew
          subst he3
          exact ⟨{ busy := true, callId := some c, startedAt := some now },
            assocGet_assocSet_self st.slots pid _, rfl, rfl⟩
    · rw [slotsClean_iff]
      intro e he hb
      rcases (mem_assocSet_nodup st.slots pid _ e hnds).mp he with he1 | ⟨he2, _⟩
      · rw [he1] at hb; cases hb
      · exact (slotsClean_iff st).mp hclean e he2 hb
    · rw [hkeys]; exact hnds
    · rw [hmapp, List.map_append]
      rw [List.nodup_append]
      refine ⟨hndm, List.nodup_singleton c, ?_⟩
      intro x hx hx2
      have : x = c := by simpa using hx2
      exact hcnotin (this ▸ hx)

theorem wf_free_core (st : SlotState) (pid c : String) (sl : Slot)
    (hwf : slotWellFormed st = true)
    (hg : assocGet st.slots pid = some sl)
    (hb : sl.busy = true) (hcid : sl.callId = some c) :
    slotWellFormed
      { slots := assocSet st.slots pid
          { busy := false, callId := none, startedAt := none },
        callToSlot := assocDelete st.callToSlot c } = true := by
  obtain ⟨hinv, hclean, hnds, hndm⟩ := (slotWellFormed_iff st).mp hwf
  obtain ⟨hslot, hmap⟩ := (slotInvariant_iff st).mp hinv
  have hmem : (pid, sl) ∈ st.slots := assocGet_some_mem hg
  obtain ⟨c0, hc0, hc0ne, hc0g⟩ := hslot (pid, sl) hmem hb
  have hcc : c0 = c := by
    rw [hcid] at hc0
    exact (Option.some.inj hc0).symm
  subst hcc
  rw [slotWellFormed_iff]
  refine ⟨?_, ?_, ?_, ?_⟩
  · rw [slotInvariant_iff]
    constructor
    · intro e he hbe
      rcases (mem_assocSet_nodup st.slots pid _ e hnds).mp he with he1 | ⟨he2, hne⟩
      · rw [he1] at hbe; cases hbe
      · obtain ⟨ce, hce, hcene, hceg⟩ := hslot e he2 hbe
        refine ⟨ce, hce, hcene, ?_⟩
        have hcec : ce ≠ c0 := by
          intro hcontra
          rw [hcontra, hc0g] at hceg
          exact hne (Option.some.inj hceg).symm
        rw [assocGet_assocDelete_ne st.callToSlot c0 ce hcec]
        exact hceg
    · intro e2 he2
      obtain ⟨hold, hnec⟩ := (mem_assocDelete st.callToSlot c0 e2).mp he2
      obtain ⟨sl2, hg2, hb2, hcid2⟩ := hmap e2 hold
      have hpne : e2.snd ≠ pid := by
        intro hcontra
        rw [hcontra, hg] at hg2
        cases hg2
        rw [hcid] at hcid2
        exact hnec (Option.some.inj hcid2).symm
      refine ⟨sl2, ?_, hb2, hcid2⟩
      rw [assocGet_assocSet_ne st.slots pid e2.snd _ hpne]
      exact hg2
  · rw [slotsClean_iff]
    intro e he hbe
    rcases (mem_assocSet_nodup st.slots pid _ e hnds).mp he with he1 | ⟨he2, _⟩
    · rw [he1]; exact ⟨rfl, rfl⟩
    · exact (slotsClean_iff st).mp hclean e he2 hbe
  · rw [assocSet_keys_of_mem st.slots pid _ sl hg]
    exact hnds
  · exact List.Nodup.sublist (assocDelete_keys_sublist st.callToSlot c0) hndm

theorem wf_free (st : SlotState) (pid : String)
    (hwf : slotWellFormed st = true) :
    slotWellFormed (freeMorganSlot st pid).snd = true := by
  obtain ⟨hinv, hclean, hnds, hndm⟩ := (slotWellFormed_iff st).mp hwf
  cases hg : assocGet st.slots pid with
  | none =>
    have hfm : (freeMorganSlot st pid).snd = st := by
      simp [freeMorganSlot, hg]
    rw [hfm]
    exact hwf
  | some sl =>
    cases hb : sl.busy with
    | false =>
      have hcl := (slotsClean_iff st).mp hclean (pid, sl) (assocGet_some_mem hg) hb
      simp only at hcl
      have hsl : sl = { busy := false, callId := none, startedAt := none } := by
        obtain ⟨b, ci, sa⟩ := sl
        simp only at hcl hb
        rw [hb, hcl.1, hcl.2]
      have hsame : assocSet st.slots pid
          { busy := false, callId := none, startedAt := none } = st.slots := by
        rw [← hsl]
        exact assocSet_same st.slots pid sl hg
      have hfm : (freeMorganSlot st pid).snd = st := by
        simp [freeMorganSlot, hg, hcl.1, hsame]
      rw [hfm]
      exact hwf
    | true =>
      have hmem : (pid, sl) ∈ st.slots := assocGet_some_mem hg
      obtain ⟨hslot, _⟩ := (slotInvariant_iff st).mp hinv
      obtain ⟨c0, hc0, hc0ne, _⟩ := hslot (pid, sl) hmem hb
      simp only at hc0
      have hfm : (freeMorganSlot st pid).snd =
          { slots := assocSet st.slots pid
              { busy := false, callId := none, startedAt := none },
            callToSlot := assocDelete st.callToSlot c0 } := by
        simp [freeMorganSlot, hg, hc0, hc0ne]
      rw [hfm]
      exact wf_free_core st pid c0 sl hwf hg hb hc0

theorem wf_freeByCall (st : SlotState) (c : String)
    (hwf : slotWellFormed st = true) :
    slotWellFormed (freeMorganSlotByCallId st c).snd = true := by
  cases hgc : assocGet st.callToSlot c with
  | none =>
    have hfm : (freeMorganSlotByCallId st c).snd = st := by
      simp [freeMorganSlotByCallId, hgc]
    rw [hfm]
    exact hwf
  | some pid =>
    by_cases hp : pid = ""
    · have hfm : (freeMorganSlotByCallId st c).snd = st := by
        simp [freeMorganSlotByCallId, hgc, hp]
      rw [hfm]
      exact hwf
    · cases hgs : assocGet st.slots pid with
      | none =>
        have hfm : (freeMorganSlotByCallId st c).snd = st := by
          simp [freeMorganSlotByCallId, hgc, hp, hgs]
        rw [hfm]
        exact hwf
      | some sl =>
        obtain ⟨hinv, _, _, _⟩ := (slotWellFormed_iff st).mp hwf
        obtain ⟨_, hmap⟩ := (slotInvariant_iff st).mp hinv
        obtain ⟨sl2, hg2, hb2, hcid2⟩ :=
          hmap (c, pid) (assocGet_some_mem hgc)
        simp only at hg2 hcid2
        have hsl : sl2 = sl := by
          rw [hgs] at hg2
          exact (Option.some.inj hg2).symm
        subst hsl
        have hfm : (freeMorganSlotByCallId st c).snd =
            { slots := assocSet st.slots pid
                { busy := false, callId := none, startedAt := none },
              callToSlot := assocDelete st.callToSlot c } := by
          simp [freeMorganSlotByCallId, hgc, hp, hgs]
        rw [hfm]
        exact wf_free_core st pid c sl2 hwf hgs hb2 hcid2

theorem slotWellFormed_step (st : SlotState) (op : SlotOp)
    (hwf : slotWellFormed st = true) (hg : slotOpGuard st op = true) :
    slotWellFormed (applySlotOp st op) = true := by
  cases op with
  | mark pid c now =>
    unfold slotOpGuard at hg
    rw [Bool.and_eq_true, Bool.and_eq_true] at hg
    obtain ⟨⟨hc, hfree⟩, hfresh⟩ := hg
    rw [bne_iff_ne] at hc
    rw [beq_iff_eq] at hfresh
    apply wf_mark st pid c now hwf hc _ hfresh
    intro sl hsl
    rw [hsl] at hfree
    simpa using hfree
  | free pid => exact wf_free st pid hwf
  | freeByCall c => exact wf_freeByCall st c hwf

/-- Counterexample to claim C6: from the all-free one-slot pool "a" (which
satisfies the invariant), the operation sequence markBusy("a","c1");
markBusy("a","c2") reaches a state where the index still maps "c1" to slot
"a", but slot "a" is busy with call "c2" — the bidirectional mapping has
diverged, refuting the claim for arbitrary operation sequences. -/
theorem C6_slot_index_counterexample :
    slotInvariant (initSlotState ["a"]) = true ∧
    slotInvariant (runSlotOps (initSlotState ["a"])
      [SlotOp.mark "a" "c1" 0, SlotOp.mark "a" "c2" 1]) = false := by
  decide

/-- Claim C6 (amended): the bidirectional index invariant holds in every
state reached from a well-formed state by operation sequences respecting the
scheduler's discipline: markBusy only targets a currently-free slot and
supplies a nonempty call id not already present in the index (free and
freeByCallId are unrestricted). -/
theorem C6_slot_index_amended :
    ∀ (ops : List SlotOp) (st : SlotState),
      slotWellFormed st = true → slotOpsGuarded st ops = true →
      slotInvariant (runSlotOps st ops) = true := by
  intro ops
  induction ops with
  | nil =>
    intro st hwf _
    exact ((slotWellFormed_iff st).mp hwf).1
  | cons op rest ih =>
    intro st hwf hg
    unfold slotOpsGuarded at hg
    rw [Bool.and_eq_true] at hg
    exact ih (applySlotOp st op) (slotWellFormed_step st op hwf hg.1) hg.2

/-- Witness for C6 (amended): a guarded mark / free-by-call-id / mark / free
sequence on a two-slot pool keeps the invariant. -/
theorem C6_slot_index_amended_witness :
    slotInvariant (runSlotOps (initSlotState ["a", "b"])
      [SlotOp.mark "a" "c1" 0, SlotOp.freeByCall "c1",
       SlotOp.mark "b" "c2" 1, SlotOp.free "b"]) = true :=
  C6_slot_index_amended
    [SlotOp.mark "a" "c1" 0, SlotOp.freeByCall "c1",
     SlotOp.mark "b" "c2" 1, SlotOp.free "b"]
    (initSlotState ["a", "b"]) (by decide) (by decide)

/-! ### Claims C3 and C4: the dispatch tick on launch failure / missing call id -/

theorem assocGet_of_find (l : List (String × Slot)) (p : String × Slot → Bool)
    (e : String × Slot)
    (hnd : (l.map (fun x => x.fst)).Nodup) (hf : l.find? p = some e) :
    assocGet l e.fst = some e.snd := by
  induction l with
  | nil => cases hf
  | cons hd rest ih =>
    rw [List.map_cons] at hnd
    have hnd2 := List.nodup_cons.mp hnd
    by_cases hp : p hd = true
    · rw [List.find?_cons_of_pos _ hp] at hf
      have heq := Option.some.inj hf
      subst heq
      obtain ⟨k2, v2⟩ := hd
      rw [assocGet_cons, if_pos rfl]
    · rw [List.find?_cons_of_neg _ (by simpa using hp)] at hf
      have hmem : e ∈ rest := List.mem_of_find?_eq_some hf
      have hne : hd.fst ≠ e.fst := by
        intro hcontra
        exact hnd2.1 (hcontra ▸ List.mem_map_of_mem (fun x => x.fst) hmem)
      obtain ⟨k2, v2⟩ := hd
      rw [assocGet_cons, if_neg hne]
      exact ih hnd2.2 hf

theorem freeMorganSlot_clean_free (st : SlotState) (pid : String)
    (hclean : slotsClean st = true)
    (hnd : (st.slots.map (fun e => e.fst)).Nodup)
    (hfree : getFreeMorganSlotId st = some pid) :
    (freeMorganSlot st pid).snd = st := by
  unfold getFreeMorganSlotId at hfree
  cases hf : st.slots.find? (fun e => !e.snd.busy) with
  | none => rw [hf] at hfree; cases hfree
  | some e =>
    rw [hf] at hfree
    obtain ⟨k, sl⟩ := e
    have hpid : k = pid := by simpa using hfree
    subst hpid
    have hg : assocGet st.slots k = some sl := by
      have h2 := assocGet_of_find st.slots _ (k, sl) hnd hf
      simpa using h2
    have hbusy : sl.busy = false := by
      have h2 := List.find?_some hf
      simpa using h2
    have hcl := (slotsClean_iff st).mp hclean (k, sl) (assocGet_some_mem hg) hbusy
    simp only at hcl
    have hsl : sl = { busy := false, callId := none, startedAt := none } := by
      obtain ⟨b, ci, sa⟩ := sl
      simp only at hcl hbusy
      rw [hbusy, hcl.1, hcl.2]
    have hsame : assocSet st.slots k
        { busy := false, callId := none, startedAt := none } = st.slots := by
      rw [← hsl]
      exact assocSet_same st.slots k sl hg
    simp [freeMorganSlot, hg, hcl.1, hsame]

theorem mem_setAdd_self (l : List String) (x : String) : x ∈ setAdd l x := by
  unfold setAdd
  by_cases hm : x ∈ l
  · rw [if_pos hm]; exact hm
  · rw [if_neg hm]; simp

theorem not_mem_setDel_self (l : List String) (x : String) : x ∉ setDel l x := by
  unfold setDel
  intro hmem
  have := List.mem_filter.mp hmem
  simp at this

/-- The tick step on the launch-failure path, fully computed: the dequeued
lead is re-enqueued at the tail via `enqueueMorganLead`, the untouched slot
is freed (a no-op on the pool), the MC and two MQ status updates are
enqueued, and the loop continues. -/
theorem tickStep_failed (st : SysState) (lead : Lead) (rest : List Lead)
    (pid : String) (launch : String → Lead → LaunchOutcome) (now : Nat)
    (hq : st.queue = lead :: rest)
    (hid : lead.id ≠ "") (hph : lead.phone ≠ "")
    (hfree : getFreeMorganSlotId st.slotSt = some pid)
    (hclean : slotsClean st.slotSt = true)
    (hnd : (st.slotSt.slots.map (fun e => e.fst)).Nodup)
    (hlaunch : launch pid lead = .failed) :
    tickStep true launch now st =
      (true,
        { queue := rest ++ [lead],
          queuedIds := setAdd (setDel st.queuedIds lead.id) lead.id,
          slotSt := st.slotSt,
          transitions :=
            st.transitions ++ [(lead.id, "MC"), (lead.id, "MQ"), (lead.id, "MQ")] }) := by
  have hnext : getNextMorganLead true st =
      (some lead,
        { queue := rest,
          queuedIds := setDel st.queuedIds lead.id,
          slotSt := st.slotSt,
          transitions := st.transitions ++ [(lead.id, "MC")] }) := by
    simp [getNextMorganLead, hq, hid]
  have hfm := freeMorganSlot_clean_free st.slotSt pid hclean hnd hfree
  have hnodup : lead.id ∉ setDel st.queuedIds lead.id := not_mem_setDel_self _ _
  simp [tickStep, hfree, hnext, hph, hlaunch, enqueueMorganLead, hid, hnodup, hfm]

/-- Counterexample to claim C3: two queued leads and a failing launcher; the
failed lead "1" is re-enqueued at the tail, so after the iteration the head
of the queue is lead "2", not the failed lead — the claim's
"returned to the head of the queue (ahead of all other queued leads)" is
false for the code. -/
theorem C3_launch_failure_counterexample :
    (tickStep true (fun _ _ => LaunchOutcome.failed) 0
        { queue := [{ id := "1", phone := "+15550001" },
                    { id := "2", phone := "+15550002" }],
          queuedIds := ["1", "2"],
          slotSt := initSlotState ["p1"],
          transitions := [] }).snd.queue.head? =
      some { id := "2", phone := "+15550002" } ∧
    ({ id := "2", phone := "+15550002" } : Lead) ≠
      { id := "1", phone := "+15550001" } := by
  decide

/-- Claim C3 (amended): when a launch fails with an error, the failed lead
is returned to the TAIL of the queue (behind the other queued leads, via
`enqueueMorganLead`), the claimed slot is returned to the free pool with the
queue length and free-slot count restored to their pre-dispatch values, a
"queued" (MQ) status transition is emitted, and the loop continues to
consider the remaining free slots instead of aborting. -/
theorem C3_launch_failure_requeues_tail (st : SysState) (lead : Lead)
    (rest : List Lead) (pid : String)
    (launch : String → Lead → LaunchOutcome) (now : Nat)
    (hq : st.queue = lead :: rest)
    (hid : lead.id ≠ "") (hph : lead.phone ≠ "")
    (hfree : getFreeMorganSlotId st.slotSt = some pid)
    (hclean : slotsClean st.slotSt = true)
    (hnd : (st.slotSt.slots.map (fun e => e.fst)).Nodup)
    (hlaunch : launch pid lead = .failed) :
    (tickStep true launch now st).fst = true ∧
    (tickStep true launch now st).snd.queue = rest ++ [lead] ∧
    (tickStep true launch now st).snd.queue.length = st.queue.length ∧
    (tickStep true launch now st).snd.slotSt = st.slotSt ∧
    freeSlotCount (tickStep true launch now st).snd.slotSt =
      freeSlotCount st.slotSt ∧
    (lead.id, "MQ") ∈ (tickStep true launch now st).snd.transitions ∧
    lead.id ∈ (tickStep true launch now st).snd.queuedIds := by
  have hstep := tickStep_failed st lead rest pid launch now hq hid hph hfree
    hclean hnd hlaunch
  rw [hstep]
  refine ⟨rfl, rfl, ?_, rfl, rfl, ?_, mem_setAdd_self _ _⟩
  · rw [hq]; simp
  · simp

/-- Witness for C3 (amended) at a concrete state: one slot, two queued
leads, failing launcher. -/
theorem C3_launch_failure_requeues_tail_witness :
    (tickStep true (fun _ _ => LaunchOutcome.failed) 0
        { queue := [{ id := "1", phone := "+15550001" },
                    { id := "2", phone := "+15550002" }],
          queuedIds := ["1", "2"],
          slotSt := initSlotState ["p1"],
          transitions := [] }).fst = true ∧
    (tickStep true (fun _ _ => LaunchOutcome.failed) 0
        { queue := [{ id := "1", phone := "+15550001" },
                    { id := "2", phone := "+15550002" }],
          queuedIds := ["1", "2"],
          slotSt := initSlotState ["p1"],
          transitions := [] }).snd.queue =
      [{ id := "2", phone := "+15550002" }] ++ [{ id := "1", phone := "+15550001" }] :=
  ⟨(C3_launch_failure_requeues_tail
      { queue := [{ id := "1", phone := "+15550001" },
                  { id := "2", phone := "+15550002" }],
        queuedIds := ["1", "2"],
        slotSt := initSlotState ["p1"],
        transitions := [] }
      { id := "1", phone := "+15550001" } [{ id := "2", phone := "+15550002" }]
      "p1" (fun _ _ => LaunchOutcome.failed) 0 rfl (by decide) (by decide)
      (by decide) (by decide) (by decide) rfl).1,
   (C3_launch_failure_requeues_tail
      { queue := [{ id := "1", phone := "+15550001" },
                  { id := "2", phone := "+15550002" }],
        queuedIds := ["1", "2"],
        slotSt := initSlotState ["p1"],
        transitions := [] }
      { id := "1", phone := "+15550001" } [{ id := "2", phone := "+15550002" }]
      "p1" (fun _ _ => LaunchOutcome.failed) 0 rfl (by decide) (by decide)
      (by decide) (by decide) (by decide) rfl).2.1⟩

/-- Claim C4: when a launch returns success but no call id, the slot is
freed immediately and the pool is unchanged from before the tick, the lead
is requeued at the head of the queue (so the queue is exactly as before the
iteration) with its id re-admitted to the Dedup Ledger, and a "queued" (MQ)
status transition is emitted. -/
theorem C4_no_callid_requeues_front (st : SysState) (lead : Lead)
    (rest : List Lead) (pid : String)
    (launch : String → Lead → LaunchOutcome) (now : Nat)
    (hq : st.queue = lead :: rest)
    (hid : lead.id ≠ "") (hph : lead.phone ≠ "")
    (hfree : getFreeMorganSlotId st.slotSt = some pid)
    (hclean : slotsClean st.slotSt = true)
    (hnd : (st.slotSt.slots.map (fun e => e.fst)).Nodup)
    (hlaunch : launch pid lead = .ok none) :
    (tickStep true launch now st).fst = true ∧
    (tickStep true launch now st).snd.queue = st.queue ∧
    (tickStep true launch now st).snd.queue.head? = some lead ∧
    (tickStep true launch now st).snd.slotSt = st.slotSt ∧
    lead.id ∈ (tickStep true launch now st).snd.queuedIds ∧
    (tickStep true launch now st).snd.transitions =
      st.transitions ++ [(lead.id, "MC"), (lead.id, "MQ")] := by
  have hnext : getNextMorganLead true st =
      (some lead,
        { queue := rest,
          queuedIds := setDel st.queuedIds lead.id,
          slotSt := st.slotSt,
          transitions := st.transitions ++ [(lead.id, "MC")] }) := by
    simp [getNextMorganLead, hq, hid]
  have hfm := freeMorganSlot_clean_free st.slotSt pid hclean hnd hfree
  have hstep : tickStep true launch now st =
      (true,
        { queue := lead :: rest,
          queuedIds := setAdd (setDel st.queuedIds lead.id) lead.id,
          slotSt := st.slotSt,
          transitions := st.transitions ++ [(lead.id, "MC"), (lead.id, "MQ")] }) := by
    simp [tickStep, hfree, hnext, hph, hlaunch, strTruthy, hid, hfm]
  rw [hstep]
  exact ⟨rfl, hq.symm, rfl, rfl, mem_setAdd_self _ _, rfl⟩

/-- Witness for C4 at a concrete state: one slot, one queued lead, a
launcher that resolves without a call id. -/
theorem C4_no_callid_requeues_front_witness :
    (tickStep true (fun _ _ => LaunchOutcome.ok none) 0
        { queue := [{ id := "7", phone := "+15550007" }],
          queuedIds := ["7"],
          slotSt := initSlotState ["p1"],
          transitions := [] }).snd.queue.head? =
      some { id := "7", phone := "+15550007" } ∧
    (tickStep true (fun _ _ => LaunchOutcome.ok none) 0
        { queue := [{ id := "7", phone := "+15550007" }],
          queuedIds := ["7"],
          slotSt := initSlotState ["p1"],
          transitions := [] }).snd.slotSt = initSlotState ["p1"] :=
  ⟨(C4_no_callid_requeues_front
      { queue := [{ id := "7", phone := "+15550007" }],
        queuedIds := ["7"],
        slotSt := initSlotState ["p1"],
        transitions := [] }
      { id := "7", phone := "+15550007" } [] "p1"
      (fun _ _ => LaunchOutcome.ok none) 0 rfl (by decide) (by decide)
      (by decide) (by decide) (by decide) rfl).2.2.1,
   (C4_no_callid_requeues_front
      { queue := [{ id := "7", phone := "+15550007" }],
        queuedIds := ["7"],
        slotSt := initSlotState ["p1"],
        transitions := [] }
      { id := "7", phone := "+15550007" } [] "p1"
      (fun _ _ => LaunchOutcome.ok none) 0 rfl (by decide) (by decide)
      (by decide) (by decide) (by decide) rfl).2.2.2.1⟩

/-! ### Claim C8: no phoneless lead in the queue -/

theorem queueAllHavePhone_iff (st : SysState) :
    queueAllHavePhone st = true ↔ ∀ l ∈ st.queue, l.phone ≠ "" := by
  unfold queueAllHavePhone
  rw [List.all_eq_true]
  simp

theorem enqueue_preserves_phone (enabled : Bool) (st : SysState) (lead : Lead)
    (hall : ∀ l ∈ st.queue, l.phone ≠ "") (hph : lead.phone ≠ "") :
    ∀ l ∈ (enqueueMorganLead enabled st lead).queue, l.phone ≠ "" := by
  unfold enqueueMorganLead
  by_cases hid : lead.id = ""
  · rw [if_pos hid]; exact hall
  · rw [if_neg hid]
    by_cases hdup : lead.id ∈ st.queuedIds
    · rw [if_pos hdup]; exact hall
    · rw [if_neg hdup]
      intro l hl
      rcases List.mem_append.mp hl with h1 | h2
      · exact hall l h1
      · have : l = lead := by simpa using h2
        exact this ▸ hph

theorem deq_preserves_phone (enabled : Bool) (st : SysState)
    (hall : ∀ l ∈ st.queue, l.phone ≠ "") :
    ∀ l ∈ (getNextMorganLead enabled st).snd.queue, l.phone ≠ "" := by
  cases hq : st.queue with
  | nil => simp [getNextMorganLead, hq]
  | cons lead rest =>
    have hallr : ∀ l ∈ rest, l.phone ≠ "" :=
      fun l hl => hall l (hq ▸ List.mem_cons_of_mem _ hl)
    by_cases hid : lead.id = ""
    · simpa [getNextMorganLead, hq, hid] using hallr
    · simpa [getNextMorganLead, hq, hid] using hallr

theorem tickStep_preserves_phone (enabled : Bool)
    (launch : String → Lead → LaunchOutcome) (now : Nat) (st : SysState)
    (hall : ∀ l ∈ st.queue, l.phone ≠ "") :
    ∀ l ∈ (tickStep enabled launch now st).snd.queue, l.phone ≠ "" := by
  cases hfree : getFreeMorganSlotId st.slotSt with
  | none => simpa [tickStep, hfree] using hall
  | some pid =>
    cases hq : st.queue with
    | nil =>
      have hnext : getNextMorganLead enabled st = (none, st) := by
        simp [getNextMorganLead, hq]
      simpa [tickStep, hfree, hnext] using hall
    | cons lead rest =>
      have hallr : ∀ l ∈ rest, l.phone ≠ "" :=
        fun l hl => hall l (hq ▸ List.mem_cons_of_mem _ hl)
      have hlead : lead.phone ≠ "" := hall lead (hq ▸ List.mem_cons_self _ _)
      have hnext : getNextMorganLead enabled st =
          (some lead,
            if lead.id = "" then { st with queue := rest }
            else
              { st with
                queue := rest,
                queuedIds := setDel st.queuedIds lead.id,
                transitions :=
                  if enabled then st.transitions ++ [(lead.id, "MC")]
                  else st.transitions }) := by
        by_cases hid : lead.id = "" <;> simp [getNextMorganLead, hq, hid]
      cases hl : launch pid lead with
      | ok cid =>
        by_cases ht : strTruthy cid = true
        · intro l hl2
          have hmem : l ∈ rest := by
            by_cases hid : lead.id = "" <;>
              simpa [tickStep, hfree, hnext, hlead, hl, ht, hid] using hl2
          exact hallr l hmem
        · intro l hl2
          have hmem : l ∈ lead :: rest := by
            by_cases hid : lead.id = "" <;>
              simpa [tickStep, hfree, hnext, hlead, hl, ht, hid] using hl2
          rcases List.mem_cons.mp hmem with h1 | h2
          · exact h1 ▸ hlead
          · exact hallr l h2
      | failed =>
        intro l hl2
        have hnm := not_mem_setDel_self st.queuedIds lead.id
        have hmem : l ∈ rest ++ [lead] ∨ l ∈ rest := by
          by_cases hid : lead.id = ""
          · exact Or.inr (by
              simpa [tickStep, hfree, hnext, hlead, hl, enqueueMorganLead, hid]
                using hl2)
          · exact Or.inl (by
              simpa [tickStep, hfree, hnext, hlead, hl, enqueueMorganLead, hid, hnm]
                using hl2)
        rcases hmem with h1 | h2
        · rcases List.mem_append.mp h1 with h3 | h4
          · exact hallr l h3
          · exact (by simpa using h4 : l = lead) ▸ hlead
        · exact hallr l h2

theorem hydrateFold_preserves_phone :
    ∀ (leads : List Lead) (acc : SysState),
      (∀ l ∈ acc.queue, l.phone ≠ "") →
      ∀ l ∈ (leads.foldl hydrateAddLead acc).queue, l.phone ≠ "" := by
  intro leads
  induction leads with
  | nil => intro acc hall; simpa using hall
  | cons x xs ih =>
    intro acc hall
    rw [List.foldl_cons]
    apply ih
    unfold hydrateAddLead
    by_cases h1 : x.id = ""
    · rw [if_pos h1]; exact hall
    · rw [if_neg h1]
      by_cases h2 : x.phone = ""
      · rw [if_pos h2]; exact hall
      · rw [if_neg h2]
        by_cases h3 : x.id ∈ acc.queuedIds
        · rw [if_pos h3]; exact hall
        · rw [if_neg h3]
          intro l hl
          rcases List.mem_append.mp hl with ha | hb
          · exact hall l ha
          · exact (by simpa using hb : l = x) ▸ h2

theorem mergeFold_preserves_phone :
    ∀ (leads : List Lead) (acc : SysState),
      (∀ x ∈ leads, x.phone ≠ "") →
      (∀ l ∈ acc.queue, l.phone ≠ "") →
      ∀ l ∈ (leads.foldl mergeAddLead acc).queue, l.phone ≠ "" := by
  intro leads
  induction leads with
  | nil => intro acc _ hall; simpa using hall
  | cons x xs ih =>
    intro acc hxs hall
    rw [List.foldl_cons]
    apply ih
    · exact fun y hy => hxs y (List.mem_cons_of_mem _ hy)
    · unfold mergeAddLead
      by_cases h1 : x.id = ""
      · rw [if_pos h1]; exact hall
      · rw [if_neg h1]
        by_cases h3 : x.id ∈ acc.queuedIds
        · rw [if_pos h3]; exact hall
        · rw [if_neg h3]
          intro l hl
          rcases List.mem_append.mp hl with ha | hb
          · exact hall l ha
          · exact (by simpa using hb : l = x) ▸ hxs x (List.mem_cons_self _ _)

/-- Counterexample to claim C8: `enqueueMorganLead` checks only the lead id,
not the phone; a record with an id and no phone offered directly to the
enqueue operation is pushed into the queue. -/
theorem C8_phoneless_enqueue_counterexample :
    (enqueueMorganLead true
      { queue := [], queuedIds := [], slotSt := initSlotState ["p1"],
        transitions := [] }
      { id := "1", phone := "" }).queue = [{ id := "1", phone := "" }] ∧
    queueAllHavePhone
      (enqueueMorganLead true
        { queue := [], queuedIds := [], slotSt := initSlotState ["p1"],
          transitions := [] }
        { id := "1", phone := "" }) = false := by
  decide

/-- Claim C8 (amended): the enqueue operation itself rejects only records
without an id; however, provided every record offered directly to enqueue
carries a phone number — which every caller in the repository guarantees by
filtering — then after any sequence of enqueue, dequeue, tick, hydration and
merge operations every record in the Lead Queue has a non-empty phone. -/
theorem C8_phoneless_never_queued_amended :
    ∀ (ops : List QueueOp) (enabled : Bool) (st : SysState),
      queueAllHavePhone st = true →
      queueOpsPhoneFed ops = true →
      queueAllHavePhone (runQueueOps enabled st ops) = true := by
  intro ops
  induction ops with
  | nil => intro enabled st hall _; exact hall
  | cons op rest ih =>
    intro enabled st hall hfed
    unfold queueOpsPhoneFed at hfed
    rw [List.all_cons, Bool.and_eq_true] at hfed
    have hallp := (queueAllHavePhone_iff st).mp hall
    have hstep : queueAllHavePhone (applyQueueOp enabled st op) = true := by
      rw [queueAllHavePhone_iff]
      cases op with
      | enq lead =>
        have hph : lead.phone ≠ "" := by simpa using hfed.1
        exact enqueue_preserves_phone enabled st lead hallp hph
      | deq => exact deq_preserves_phone enabled st hallp
      | tick launch now => exact tickStep_preserves_phone enabled launch now st hallp
      | hydrate leads =>
        exact hydrateFold_preserves_phone leads _ (by simp)
      | merge leads =>
        refine mergeFold_preserves_phone _ st ?_ hallp
        intro x hx
        simpa using (List.mem_filter.mp hx).2
    exact ih enabled (applyQueueOp enabled st op)
      hstep (by unfold queueOpsPhoneFed; exact hfed.2)

/-- Witness for C8 (amended): a phone-carrying enqueue, a hydration, a
failing tick and a dequeue leave only phone-bearing records queued. -/
theorem C8_phoneless_never_queued_amended_witness :
    queueAllHavePhone
      (runQueueOps true
        { queue := [], queuedIds := [], slotSt := initSlotState ["p1"],
          transitions := [] }
        [QueueOp.enq { id := "1", phone := "+15550001" },
         QueueOp.hydrate
           [{ id := "2", phone := "+15550002" }, { id := "3", phone := "" }],
         QueueOp.tick (fun _ _ => LaunchOutcome.failed) 0,
         QueueOp.deq]) = true :=
  C8_phoneless_never_queued_amended
    [QueueOp.enq { id := "1", phone := "+15550001" },
     QueueOp.hydrate
       [{ id := "2", phone := "+15550002" }, { id := "3", phone := "" }],
     QueueOp.tick (fun _ _ => LaunchOutcome.failed) 0,
     QueueOp.deq]
    true
    { queue := [], queuedIds := [], slotSt := initSlotState ["p1"],
      transitions := [] }
    (by decide) (by decide)

/-! ### Claim C5: status-update retry policy -/

theorem update429_run :
    ∀ (k a : Nat) (rest : List ConvosoResp),
      a + k ≤ MAX_RETRIES_429 →
      updateConvosoLead
        (List.replicate k (ConvosoResp.errStatus 429) ++ ConvosoResp.ok :: rest) a =
        UpdateOutcome.success (a + k) := by
  intro k
  induction k with
  | zero =>
    intro a rest _
    simp [updateConvosoLead]
  | succ m ih =>
    intro a rest hle
    have hlt : ¬ MAX_RETRIES_429 ≤ a := by
      unfold MAX_RETRIES_429 at hle ⊢
      omega
    rw [List.replicate_succ, List.cons_append]
    have hrec := ih (a + 1) rest (by omega)
    have harith : a + 1 + m = a + (m + 1) := by omega
    rw [harith] at hrec
    simp only [updateConvosoLead, if_pos rfl, if_neg hlt]
    exact hrec

theorem update429_exhaust :
    ∀ (k a : Nat) (rest : List ConvosoResp),
      a + k = MAX_RETRIES_429 →
      updateConvosoLead
        (List.replicate (k + 1) (ConvosoResp.errStatus 429) ++ rest) a =
        UpdateOutcome.dropped429 MAX_RETRIES_429 := by
  intro k
  induction k with
  | zero =>
    intro a rest ha
    have h5 : a = MAX_RETRIES_429 := by omega
    subst h5
    simp [updateConvosoLead]
  | succ m ih =>
    intro a rest ha
    have hlt : ¬ MAX_RETRIES_429 ≤ a := by
      unfold MAX_RETRIES_429 at ha ⊢
      omega
    rw [List.replicate_succ, List.cons_append]
    simp only [updateConvosoLead, if_pos rfl, if_neg hlt]
    exact ih (a + 1) rest (by omega)

/-- Counterexample to claim C5: a 500 response is a non-2xx that is neither
a 429 nor a permanent 4xx rejection, so per the claim it is retryable — a
retry would succeed on the second response.  The code throws immediately on
any non-429 error, never reaching the second response. -/
theorem C5_retry_counterexample :
    updateConvosoLead [ConvosoResp.errStatus 500, ConvosoResp.ok] 1 =
      UpdateOutcome.failedOther (some 500) 1 ∧
    UpdateOutcome.failedOther (some 500) 1 ≠ UpdateOutcome.success 2 := by
  decide

/-- Claim C5 (amended): only a 429 response is retried; every other error
(4xx, 5xx, or no response status) fails the update immediately on that
attempt, after which the transition is logged and dropped by the caller.
A 429 is retried with exponentially growing backoff
(each delay, net of jitter, is twice the previous) up to 5 attempts in
total; a 429 on the fifth attempt drops the transition with an error log. -/
theorem C5_retry_policy_amended :
    (∀ (code n : Nat) (rest : List ConvosoResp), code ≠ 429 →
      updateConvosoLead (ConvosoResp.errStatus code :: rest) n =
        UpdateOutcome.failedOther (some code) n) ∧
    (∀ (n : Nat) (rest : List ConvosoResp),
      updateConvosoLead (ConvosoResp.errNoStatus :: rest) n =
        UpdateOutcome.failedOther none n) ∧
    (∀ (k : Nat) (rest : List ConvosoResp), k + 1 ≤ MAX_RETRIES_429 →
      updateConvosoLead
        (List.replicate k (ConvosoResp.errStatus 429) ++ ConvosoResp.ok :: rest) 1 =
        UpdateOutcome.success (k + 1)) ∧
    (∀ rest : List ConvosoResp,
      updateConvosoLead
        (List.replicate MAX_RETRIES_429 (ConvosoResp.errStatus 429) ++ rest) 1 =
        UpdateOutcome.dropped429 MAX_RETRIES_429) ∧
    (∀ a j : Nat, 1 ≤ a → backoffDelay (a + 1) j + j = 2 * backoffDelay a j) := by
  refine ⟨?_, ?_, ?_, ?_, ?_⟩
  · intro code n rest hc
    simp [updateConvosoLead, hc]
  · intro n rest
    simp [updateConvosoLead]
  · intro k rest hk
    have h := update429_run k 1 rest (by omega)
    have harith : 1 + k = k + 1 := by omega
    rw [harith] at h
    exact h
  · intro rest
    have h5 : MAX_RETRIES_429 = 4 + 1 := rfl
    rw [h5]
    exact update429_exhaust 4 1 rest (by omega)
  · intro a j ha
    obtain ⟨m, rfl⟩ : ∃ m, a = m + 1 := ⟨a - 1, by omega⟩
    simp only [backoffDelay, BASE_DELAY_MS_429, Nat.add_sub_cancel]
    rw [pow_succ]
    ring

/-- Witness for C5 (amended): two 429s then success resolves on attempt 3;
a single 500 fails at once. -/
theorem C5_retry_policy_amended_witness :
    updateConvosoLead
      (List.replicate 2 (ConvosoResp.errStatus 429) ++ ConvosoResp.ok :: []) 1 =
      UpdateOutcome.success 3 ∧
    updateConvosoLead (ConvosoResp.errStatus 500 :: []) 1 =
      UpdateOutcome.failedOther (some 500) 1 :=
  ⟨C5_retry_policy_amended.2.2.1 2 [] (by decide),
   C5_retry_policy_amended.1 500 1 [] (by decide)⟩

/-! ### Claim C1: the Dedup Ledger eviction sweep (spec-modelled) -/

theorem sweepGo_keeps_queued (q : List String) :
    ∀ (t : Nat) (l : List (String × Nat)) (e : String × Nat),
      e ∈ l → e.fst ∈ q → e ∈ sweepGo q t l := by
  intro t l
  induction l generalizing t with
  | nil => intro e he; cases he
  | cons x rest ih =>
    intro e he hq
    cases t with
    | zero => simpa [sweepGo] using he
    | succ s =>
      by_cases hx : x.fst ∈ q
      · rw [show sweepGo q (s + 1) (x :: rest) = x :: sweepGo q (s + 1) rest by
          simp [sweepGo, hx]]
        rcases List.mem_cons.mp he with h1 | h2
        · exact h1 ▸ List.mem_cons_self _ _
        · exact List.mem_cons_of_mem _ (ih (s + 1) e h2 hq)
      · rw [show sweepGo q (s + 1) (x :: rest) = sweepGo q s rest by
          simp [sweepGo, hx]]
        rcases List.mem_cons.mp he with h1 | h2
        · exact absurd (h1 ▸ hq) hx
        · exact ih s e h2 hq

theorem sweepGo_removed_nonqueued (q : List String) (t : Nat)
    (l : List (String × Nat)) (e : String × Nat)
    (he : e ∈ l) (hns : e ∉ sweepGo q t l) : e.fst ∉ q :=
  fun hq => hns (sweepGo_keeps_queued q t l e he hq)

theorem sweepGo_length_le (q : List String) :
    ∀ (t : Nat) (l : List (String × Nat)),
      (sweepGo q t l).length ≤ l.length := by
  intro t l
  induction l generalizing t with
  | nil => simp [sweepGo]
  | cons x rest ih =>
    cases t with
    | zero => simp [sweepGo]
    | succ s =>
      by_cases hx : x.fst ∈ q
      · rw [show sweepGo q (s + 1) (x :: rest) = x :: sweepGo q (s + 1) rest by
          simp [sweepGo, hx]]
        simpa using ih (s + 1)
      · rw [show sweepGo q (s + 1) (x :: rest) = sweepGo q s rest by
          simp [sweepGo, hx]]
        exact Nat.le_succ_of_le (ih s)

theorem sweepGo_length_lt (q : List String) :
    ∀ (t : Nat) (l : List (String × Nat)), 1 ≤ t →
      (∃ e ∈ l, e.fst ∉ q) →
      (sweepGo q t l).length + 1 ≤ l.length := by
  intro t l
  induction l generalizing t with
  | nil => intro _ hex; obtain ⟨e, he, _⟩ := hex; cases he
  | cons x rest ih =>
    intro ht hex
    obtain ⟨s, rfl⟩ : ∃ s, t = s + 1 := ⟨t - 1, by omega⟩
    by_cases hx : x.fst ∈ q
    · rw [show sweepGo q (s + 1) (x :: rest) = x :: sweepGo q (s + 1) rest by
        simp [sweepGo, hx]]
      obtain ⟨e, he, henq⟩ := hex
      have herest : e ∈ rest := by
        rcases List.mem_cons.mp he with h1 | h2
        · exact absurd (h1 ▸ hx) (h1 ▸ henq)
        · exact h2
      have := ih (s + 1) ht ⟨e, herest, henq⟩
      simpa using this
    · rw [show sweepGo q (s + 1) (x :: rest) = sweepGo q s rest by
        simp [sweepGo, hx]]
      have := sweepGo_length_le q s rest
      simpa using Nat.succ_le_succ this

theorem trackedId_false_ne (st : LedgerState) (id : String)
    (hfresh : trackedId st id = false) :
    ∀ e ∈ st.ledger, e.fst ≠ id := by
  intro e he
  unfold trackedId at hfresh
  have h2 := List.any_eq_false.mp hfresh e he
  simpa using h2

/-- Counterexample to claim C1 (against the eviction sweep modelled from the
spec): with ceiling 10, admitting an 11th distinct id triggers the sweep,
but every tracked id is still present in the Lead Queue (every admit also
enqueues), so the sweep may remove nothing and the ledger ends at size
11 > 10 — "after the sweep the ledger size is at most the ceiling" fails. -/
theorem C1_eviction_sweep_counterexample :
    (ledgerEnqueueAll { ledger := [], queue := [], ceiling := 10 }
      ["a0", "a1", "a2", "a3", "a4", "a5", "a6", "a7", "a8", "a9", "a10"]
      0).ledger.length = 11 ∧ 10 < 11 := by
  decide

/-- Claim C1 (amended, against the spec-modelled sweep): if the ledger holds
at most the ceiling C with C at least 10, and at least one tracked id is
outside the Lead Queue, then admitting a fresh id leaves the ledger at size
at most C; moreover every tracked id present in the Lead Queue survives, and
every entry the sweep removes was not in the (post-admit) Lead Queue. -/
theorem C1_eviction_sweep_amended (st : LedgerState) (id : String) (now : Nat)
    (hsize : st.ledger.length ≤ st.ceiling)
    (hceil : 10 ≤ st.ceiling)
    (hfresh : trackedId st id = false)
    (hnq : ∃ e ∈ st.ledger, e.fst ∉ st.queue) :
    (ledgerEnqueue st id now).ledger.length ≤ st.ceiling ∧
    (∀ e ∈ st.ledger, e.fst ∈ st.queue → e ∈ (ledgerEnqueue st id now).ledger) ∧
    (∀ e ∈ st.ledger ++ [(id, now)],
      e ∉ (ledgerEnqueue st id now).ledger → e.fst ∉ st.queue ++ [id]) := by
  have henq : ledgerEnqueue st id now =
      (if st.ceiling < (st.ledger ++ [(id, now)]).length then
        evictionSweep
          { st with ledger := st.ledger ++ [(id, now)], queue := st.queue ++ [id] }
      else
        { st with ledger := st.ledger ++ [(id, now)], queue := st.queue ++ [id] }) := by
    simp [ledgerEnqueue, hfresh]
  by_cases hov : st.ceiling < (st.ledger ++ [(id, now)]).length
  · rw [henq, if_pos hov]
    have hlen : st.ledger.length = st.ceiling := by
      simp only [List.length_append, List.length_cons, List.length_nil] at hov
      omega
    obtain ⟨e0, he0, he0nq⟩ := hnq
    have he0ne : e0.fst ≠ id := trackedId_false_ne st id hfresh e0 he0
    have he0nq2 : e0.fst ∉ st.queue ++ [id] := by
      intro hmem
      rcases List.mem_append.mp hmem with h1 | h2
      · exact he0nq h1
      · exact he0ne (by simpa using h2)
    have ht : 1 ≤ st.ceiling / 10 := by omega
    refine ⟨?_, ?_, ?_⟩
    · have hlt := sweepGo_length_lt (st.queue ++ [id]) (st.ceiling / 10)
        (st.ledger ++ [(id, now)]) ht
        ⟨e0, List.mem_append_left _ he0, he0nq2⟩
      unfold evictionSweep
      simp only [List.length_append, List.length_cons, List.length_nil] at hlt ⊢
      omega
    · intro e he hq
      unfold evictionSweep
      exact sweepGo_keeps_queued (st.queue ++ [id]) (st.ceiling / 10)
        (st.ledger ++ [(id, now)]) e (List.mem_append_left _ he)
        (List.mem_append_left _ hq)
    · intro e he hns
      unfold evictionSweep at hns
      exact sweepGo_removed_nonqueued (st.queue ++ [id]) (st.ceiling / 10)
        (st.ledger ++ [(id, now)]) e he hns
  · rw [henq, if_neg hov]
    refine ⟨?_, ?_, ?_⟩
    · simp only [List.length_append, List.length_cons, List.length_nil] at hov ⊢
      omega
    · intro e he _
      exact List.mem_append_left _ he
    · intro e he hns
      exact absurd he hns

/-- Witness for C1 (amended): ceiling 10, ten tracked ids of which one is
outside the queue; admitting a fresh id keeps the ledger within the
ceiling. -/
theorem C1_eviction_sweep_amended_witness :
    (ledgerEnqueue
      { ledger := [("x0", 0), ("q1", 1), ("q2", 2), ("q3", 3), ("q4", 4),
                   ("q5", 5), ("q6", 6), ("q7", 7), ("q8", 8), ("q9", 9)],
        queue := ["q1", "q2", "q3", "q4", "q5", "q6", "q7", "q8", "q9"],
        ceiling := 10 } "new" 10).ledger.length ≤ 10 :=
  (C1_eviction_sweep_amended
    { ledger := [("x0", 0), ("q1", 1), ("q2", 2), ("q3", 3), ("q4", 4),
                 ("q5", 5), ("q6", 6), ("q7", 7), ("q8", 8), ("q9", 9)],
      queue := ["q1", "q2", "q3", "q4", "q5", "q6", "q7", "q8", "q9"],
      ceiling := 10 } "new" 10 (by decide) (by decide) (by decide)
    (by decide)).1

/-! ### Claim C9: the Morgan enable switch -/

/-- Counterexample to claim C9: a MORGAN_ENABLED set to the empty string is
not "true", "1" or "yes" and is not unset, so the claim says dispatch is
disabled; the code treats the empty string as falsy, falls back to the
default "true", and stays enabled. -/
theorem C9_morgan_enabled_counterexample :
    isMorganEnabled (some "") = true ∧ claimSpecEnabled (some "") = false := by
  decide

/-- Claim C9 (amended): `isMorganEnabled` returns true iff MORGAN_ENABLED,
lowercased, is "true", "1" or "yes", or is unset, or is set to the empty
string (a falsy value falls back to the enabled default); and when disabled,
`startOutboundCall` for the morgan agent returns before any contact with the
Call Launch Service. -/
theorem C9_morgan_enabled_amended :
    (∀ env : Option String, isMorganEnabled env = amendedSpecEnabled env) ∧
    (∀ apiKey morganId rileyId nextPid agentType agentName assistantId
        toNumber phoneNumberId : Option String,
      jsToLower (strOr agentType (strOr agentName "morgan")) = "morgan" →
      startOutboundCall false apiKey morganId rileyId nextPid agentType
        agentName assistantId toNumber phoneNumberId = .skippedDisabled) := by
  constructor
  · intro env
    cases env with
    | none => rfl
    | some s =>
      by_cases hs : s = ""
      · subst hs; rfl
      · simp [isMorganEnabled, amendedSpecEnabled, hs]
  · intro apiKey morganId rileyId nextPid agentType agentName assistantId
      toNumber phoneNumberId hmor
    simp [startOutboundCall, hmor]

/-- Witness for C9 (amended): the toggle agrees with the amended predicate at
"nope", and a disabled morgan call is skipped. -/
theorem C9_morgan_enabled_witness :
    isMorganEnabled (some "nope") = amendedSpecEnabled (some "nope") ∧
    startOutboundCall false (some "key") (some "asst") none (some "pid")
      (some "morgan") (some "Morgan") none (some "+13055551234") none =
      .skippedDisabled := by
  refine ⟨C9_morgan_enabled_amended.1 (some "nope"), ?_⟩
  exact C9_morgan_enabled_amended.2 (some "key") (some "asst") none (some "pid")
    (some "morgan") (some "Morgan") none (some "+13055551234") none (by decide)

/-! ### Claim C7: freeMorganSlotByCallId on an untracked call id -/

/-- Claim C7: for a call id with no entry in the call-id index, and likewise
for an index entry whose slot no longer exists, `freeMorganSlotByCallId`
returns false and leaves the whole state (every slot's busy flag, callId,
startedAt, and the index) unchanged. -/
theorem C7_freeByCallId_untracked_noop (st : SlotState) (c : String) :
    (assocGet st.callToSlot c = none → freeMorganSlotByCallId st c = (false, st)) ∧
    (∀ pid, assocGet st.callToSlot c = some pid → assocGet st.slots pid = none →
      freeMorganSlotByCallId st c = (false, st)) := by
  constructor
  · intro h
    simp [freeMorganSlotByCallId, h]
  · intro pid h1 h2
    by_cases hp : pid = ""
    · simp [freeMorganSlotByCallId, h1, hp]
    · simp [freeMorganSlotByCallId, h1, hp, h2]

/-- Witness for C7: a pool with one busy slot tracking call "x"; freeing the
unknown call id "y" returns false and changes nothing. -/
theorem C7_freeByCallId_untracked_noop_witness :
    freeMorganSlotByCallId
      { slots := [("a", { busy := true, callId := some "x", startedAt := some 5 })],
        callToSlot := [("x", "a")] } "y" =
    (false,
      { slots := [("a", { busy := true, callId := some "x", startedAt := some 5 })],
        callToSlot := [("x", "a")] }) :=
  (C7_freeByCallId_untracked_noop
    { slots := [("a", { busy := true, callId := some "x", startedAt := some 5 })],
      callToSlot := [("x", "a")] } "y").1 (by decide)

/-! ### Claim C2: claiming a free slot -/

/-- Counterexample to claim C2: `getFreeMorganSlotId` only scans; it does not
remove the returned slot from the free pool.  With N = 1 slot, the state
after the first call is the same pool, so the second (N+1-th) call returns
slot "a" again instead of empty. -/
theorem C2_claimFreeSlot_counterexample :
    (List.replicate 2 (getFreeMorganSlotId (initSlotState ["a"]))).getLast?
      = some (some "a") ∧ (some "a" : Option String) ≠ none := by
  decide

theorem getFree_none_iff (st : SlotState) :
    getFreeMorganSlotId st = none ↔ freeSlotCount st = 0 := by
  unfold getFreeMorganSlotId freeSlotCount
  rw [Option.map_eq_none', List.find?_eq_none, List.length_eq_zero,
    List.filter_eq_nil_iff]

theorem markFree_list (v : Slot) (hv : v.busy = true) :
    ∀ (l : List (String × Slot)) (pid : String),
      (l.map (fun e => e.fst)).Nodup →
      (l.find? (fun e => !e.snd.busy)).map (fun e => e.fst) = some pid →
      ((assocSet l pid v).filter (fun e => !e.snd.busy)).length
          = (l.filter (fun e => !e.snd.busy)).length - 1 ∧
      1 ≤ (l.filter (fun e => !e.snd.busy)).length ∧
      (assocSet l pid v).map (fun e => e.fst) = l.map (fun e => e.fst) ∧
      (∃ sl, assocGet l pid = some sl) := by
  intro l
  induction l with
  | nil => intro pid _ hfind; simp [List.find?] at hfind
  | cons e rest ih =>
    intro pid hnd hfind
    cases hb : e.snd.busy with
    | false =>
      have hf : (e :: rest).find? (fun x => !x.snd.busy) = some e :=
        List.find?_cons_of_pos _ (by rw [hb]; rfl)
      rw [hf] at hfind
      have hpid : e.fst = pid := by simpa using hfind
      subst hpid
      refine ⟨?_, ?_, ?_, ⟨e.snd, ?_⟩⟩
      · simp [assocSet, List.filter_cons, hb, hv]
      · simp [List.filter_cons, hb, Nat.succ_le_succ]
      · simp [assocSet]
      · simp [assocGet]
    | true =>
      have hf : (e :: rest).find? (fun x => !x.snd.busy)
          = rest.find? (fun x => !x.snd.busy) :=
        List.find?_cons_of_neg _ (by rw [hb]; simp)
      rw [hf] at hfind
      obtain ⟨a, hfa, ha⟩ :
          ∃ a, rest.find? (fun x => !x.snd.busy) = some a ∧ a.fst = pid := by
        cases hfr : rest.find? (fun x => !x.snd.busy) with
        | none => rw [hfr] at hfind; cases hfind
        | some a => rw [hfr] at hfind; exact ⟨a, rfl, by simpa using hfind⟩
      have hmem : a ∈ rest := List.mem_of_find?_eq_some hfa
      rw [List.map_cons] at hnd
      have hnd2 := List.nodup_cons.mp hnd
      have hne : e.fst ≠ pid := by
        intro hcontra
        have hm : a.fst ∈ rest.map (fun x => x.fst) :=
          List.mem_map_of_mem (fun x => x.fst) hmem
        rw [ha, ← hcontra] at hm
        exact hnd2.1 hm
      have ihr := ih pid hnd2.2 (by rw [hfa]; simp [ha])
      refine ⟨?_, ?_, ?_, ?_⟩
      · simpa [assocSet, hne, List.filter_cons, hb] using ihr.1
      · simpa [List.filter_cons, hb] using ihr.2.1
      · simpa [assocSet, hne] using ihr.2.2.1
      · simpa [assocGet, hne] using ihr.2.2.2

theorem runClaims_length :
    ∀ (cs : List String) (st : SlotState) (now : Nat),
      (runClaims st cs now).length = cs.length := by
  intro cs
  induction cs with
  | nil => intro st now; rfl
  | cons c rest ih => intro st now; simp [runClaims, ih]

/-- Claim C2 (amended): the scan `getFreeMorganSlotId` does not itself claim
the slot; the tick claims by following the scan with `markMorganSlotBusy`.
For a pool with duplicate-free ids and N free slots, N+1 scan-and-mark
operations with no intervening free return a slot on each of the first N and
empty on the last. -/
theorem C2_claimFreeSlot_amended :
    ∀ (cs : List String) (st : SlotState) (now : Nat),
      (st.slots.map (fun e => e.fst)).Nodup →
      cs.length = freeSlotCount st + 1 →
      ((runClaims st cs now).take (freeSlotCount st)).all (fun r => r.isSome) = true ∧
      (runClaims st cs now).getLast? = some none := by
  intro cs
  induction cs with
  | nil => intro st now _ hlen; cases hlen
  | cons c rest ih =>
    intro st now hnd hlen
    cases hfree : getFreeMorganSlotId st with
    | none =>
      have hf0 : freeSlotCount st = 0 := (getFree_none_iff st).mp hfree
      rw [hf0] at hlen
      have hrest : rest = [] := by
        cases rest with
        | nil => rfl
        | cons x t => simp at hlen
      subst hrest
      rw [hf0]
      constructor
      · simp
      · simp [runClaims, claimAndMark, hfree]
    | some pid =>
      have hmark := markFree_list
        { busy := true,
          callId := if strTruthy (some c) then some c else none,
          startedAt := some now } rfl st.slots pid hnd hfree
      obtain ⟨sl, hsl⟩ := hmark.2.2.2
      have hstep : claimAndMark st c now =
          (some pid, markMorganSlotBusy st pid (some c) now) := by
        simp [claimAndMark, hfree]
      have hsnd : (markMorganSlotBusy st pid (some c) now).slots =
          assocSet st.slots pid
            { busy := true,
              callId := if strTruthy (some c) then some c else none,
              startedAt := some now } := by
        simp [markMorganSlotBusy, hsl]
      have hcount : freeSlotCount (markMorganSlotBusy st pid (some c) now)
          = freeSlotCount st - 1 := by
        unfold freeSlotCount
        rw [hsnd]
        exact hmark.1
      have hnd2 : ((markMorganSlotBusy st pid (some c) now).slots.map
          (fun e => e.fst)).Nodup := by
        rw [hsnd, hmark.2.2.1]
        exact hnd
      have hge1 : 1 ≤ freeSlotCount st := hmark.2.1
      have hlen2 : rest.length + 1 = freeSlotCount st + 1 := by simpa using hlen
      obtain ⟨k, hk⟩ : ∃ k, freeSlotCount st = k + 1 :=
        ⟨freeSlotCount st - 1, by omega⟩
      have hrlen : rest.length = k + 1 := by omega
      have hcount2 : freeSlotCount (markMorganSlotBusy st pid (some c) now) = k := by
        omega
      have iha := ih (markMorganSlotBusy st pid (some c) now) now hnd2
        (by rw [hcount2]; omega)
      have hrun : runClaims st (c :: rest) now =
          some pid :: runClaims (markMorganSlotBusy st pid (some c) now) rest now := by
        simp [runClaims, hstep]
      rw [hrun, hk]
      constructor
      · rw [List.take_succ_cons, List.all_cons]
        rw [hcount2] at iha
        simpa using iha.1
      · have hne : runClaims (markMorganSlotBusy st pid (some c) now) rest now ≠ [] := by
          intro hcontra
          have := runClaims_length rest (markMorganSlotBusy st pid (some c) now) now
          rw [hcontra] at this
          simp at this
          omega
        cases hrs : runClaims (markMorganSlotBusy st pid (some c) now) rest now with
        | nil => exact absurd hrs hne
        | cons y t =>
          rw [List.getLast?_cons_cons]
          rw [hrs] at iha
          exact iha.2

/-- Witness for C2 (amended): three slots, four claim-and-mark operations;
the first three return slots, the fourth returns empty. -/
theorem C2_claimFreeSlot_amended_witness :
    ((runClaims (initSlotState ["a", "b", "c"]) ["c1", "c2", "c3", "c4"] 0).take
        (freeSlotCount (initSlotState ["a", "b", "c"]))).all
      (fun r => r.isSome) = true ∧
    (runClaims (initSlotState ["a", "b", "c"]) ["c1", "c2", "c3", "c4"] 0).getLast?
      = some none :=
  C2_claimFreeSlot_amended ["c1", "c2", "c3", "c4"] (initSlotState ["a", "b", "c"]) 0
    (by decide) (by decide)
